import Mathlib

/-!
Shallow embedding of the tower-defense simulation in `src/main.c` (the final
revision of the file), together with proofs about the embedded operations.

Conventions used throughout:
* C `int` values are modelled as `Int` (or `Nat` where the source value is
  manifestly non-negative), C `bool` as `Bool`.
* C `float` quantities are modelled as exact rationals `ℚ`.  The one place
  where a claim depends on actual binary32 rounding (the sell-refund
  computation `sellValue *= 0.7f`) uses an explicit round-to-nearest model of
  binary32 arithmetic, see `fl32pos` below.
* global mutable state is threaded explicitly through the functions.
-/

namespace TD

/-! ## Constants from main.c -/

def GRID_SIZE : Nat := 10
def GAME_AREA_WIDTH : Nat := 800
def SCREEN_HEIGHT : Nat := 800
/-- `#define cellWidth (GAME_AREA_WIDTH / GRID_SIZE)` (= 80). -/
def cellWidth : Nat := GAME_AREA_WIDTH / GRID_SIZE
/-- `#define cellHeight (SCREEN_HEIGHT / GRID_SIZE)` (= 80). -/
def cellHeight : Nat := SCREEN_HEIGHT / GRID_SIZE
def MAX_WAVES : Int := 30
def MAX_ENEMIES_PER_WAVE : Int := 150
def PLAYER_START_HEALTH : Int := 20
def PLAYER_START_MONEY : Int := 150
/-- `#define SPAWN_INTERVAL 0.35f`; the claims proved about the spawn
sequencer do not depend on the exact value of this constant. -/
def SPAWN_INTERVAL : ℚ := 35 / 100

/-! ## Grid cells and 4-adjacency -/

/-- A grid cell, written `(x, y)` exactly as indexed by `walls[x][y]`. -/
abbrev Cell := Nat × Nat

/-- The wall grid `bool walls[GRID_SIZE][GRID_SIZE]`: `g c = true` means wall. -/
abbrev Grid := Cell → Bool

def inGrid (c : Cell) : Prop := c.1 < GRID_SIZE ∧ c.2 < GRID_SIZE

instance (c : Cell) : Decidable (inGrid c) :=
  decidable_of_iff (c.1 < GRID_SIZE ∧ c.2 < GRID_SIZE) Iff.rfl

/-- The neighbour offsets `dx[] = {0,0,-1,1}`, `dy[] = {-1,1,0,0}` in the
fixed iteration order of `FindPathBFS`. -/
def neighborDeltas : List (Int × Int) := [(0, -1), (0, 1), (-1, 0), (1, 0)]

/-- The in-bounds 4-neighbourhood of a cell, in the loop order of
`FindPathBFS` (the bound check `nextX >= 0 && nextX < GRID_SIZE && ...`). -/
def neighbors (c : Cell) : List Cell :=
  neighborDeltas.filterMap fun d =>
    if 0 ≤ (c.1 : Int) + d.1 ∧ (c.1 : Int) + d.1 < (GRID_SIZE : Int) ∧
        0 ≤ (c.2 : Int) + d.2 ∧ (c.2 : Int) + d.2 < (GRID_SIZE : Int) then
      some (((c.1 : Int) + d.1).toNat, ((c.2 : Int) + d.2).toNat)
    else none

/-- Two in-grid cells that differ by one step horizontally or vertically. -/
def FourAdj (a b : Cell) : Prop :=
  inGrid a ∧ inGrid b ∧
    ((a.1 = b.1 ∧ (a.2 + 1 = b.2 ∨ b.2 + 1 = a.2)) ∨
     (a.2 = b.2 ∧ (a.1 + 1 = b.1 ∨ b.1 + 1 = a.1)))

instance (a b : Cell) : Decidable (FourAdj a b) :=
  decidable_of_iff (inGrid a ∧ inGrid b ∧
    ((a.1 = b.1 ∧ (a.2 + 1 = b.2 ∨ b.2 + 1 = a.2)) ∨
     (a.2 = b.2 ∧ (a.1 + 1 = b.1 ∨ b.1 + 1 = a.1)))) Iff.rfl

theorem fourAdj_symm {a b : Cell} (h : FourAdj a b) : FourAdj b a := by
  unfold FourAdj inGrid at h ⊢; omega

theorem fourAdj_ne {a b : Cell} (h : FourAdj a b) : a ≠ b := by
  rintro rfl; unfold FourAdj at h; omega

theorem mem_neighbors {a b : Cell} (ha : inGrid a) : b ∈ neighbors a ↔ FourAdj a b := by
  obtain ⟨ax, ay⟩ := a
  obtain ⟨bx, by'⟩ := b
  have hG : (GRID_SIZE : Int) = 10 := by norm_num [GRID_SIZE]
  simp only [inGrid, GRID_SIZE] at ha
  constructor
  · intro h
    rw [neighbors, List.mem_filterMap] at h
    obtain ⟨d, hd, hsome⟩ := h
    rw [neighborDeltas] at hd
    simp only [List.mem_cons, List.not_mem_nil, or_false] at hd
    simp only [FourAdj, inGrid, GRID_SIZE]
    rcases hd with rfl | rfl | rfl | rfl <;>
      (split at hsome <;>
        simp only [Option.some.injEq, Prod.mk.injEq, reduceCtorEq] at hsome) <;>
      omega
  · intro hadj
    simp only [FourAdj, inGrid, GRID_SIZE] at hadj
    rw [neighbors, List.mem_filterMap]
    obtain ⟨hA, hB, hrel⟩ := hadj
    rcases hrel with ⟨hx, hy | hy⟩ | ⟨hy, hx | hx⟩
    · refine ⟨(0, 1), by rw [neighborDeltas]; simp, ?_⟩
      rw [if_pos (by constructor <;> omega)]
      simp only [Option.some.injEq, Prod.mk.injEq]
      omega
    · refine ⟨(0, -1), by rw [neighborDeltas]; simp, ?_⟩
      rw [if_pos (by constructor <;> omega)]
      simp only [Option.some.injEq, Prod.mk.injEq]
      omega
    · refine ⟨(1, 0), by rw [neighborDeltas]; simp, ?_⟩
      rw [if_pos (by constructor <;> omega)]
      simp only [Option.some.injEq, Prod.mk.injEq]
      omega
    · refine ⟨(-1, 0), by rw [neighborDeltas]; simp, ?_⟩
      rw [if_pos (by constructor <;> omega)]
      simp only [Option.some.injEq, Prod.mk.injEq]
      omega

theorem neighbors_inGrid {a b : Cell} (h : b ∈ neighbors a) : inGrid b := by
  obtain ⟨ax, ay⟩ := a
  rw [neighbors, List.mem_filterMap] at h
  obtain ⟨d, _, hsome⟩ := h
  split at hsome
  · obtain ⟨bx, by'⟩ := b
    simp only [Option.some.injEq, Prod.mk.injEq] at hsome
    simp only [inGrid, GRID_SIZE] at *
    omega
  · exact absurd hsome (by simp)

theorem neighbors_nodup (a : Cell) : (neighbors a).Nodup := by
  refine List.Nodup.filterMap ?_ (by rw [neighborDeltas]; decide)
  intro d d' b hb hb'
  simp only [Option.mem_def] at hb hb'
  split at hb
  · split at hb'
    · obtain ⟨bx, by'⟩ := b
      simp only [Option.some.injEq, Prod.mk.injEq] at hb hb'
      obtain ⟨dx, dy⟩ := d
      obtain ⟨dx', dy'⟩ := d'
      simp only [Prod.mk.injEq]
      simp only at hb hb'
      constructor <;> omega
    · exact absurd hb' (by simp)
  · exact absurd hb (by simp)

/-! ## Walkability, paths, and shortest distance -/

def Walkable (g : Grid) (c : Cell) : Prop := inGrid c ∧ g c = false

instance (g : Grid) (c : Cell) : Decidable (Walkable g c) :=
  decidable_of_iff (inGrid c ∧ g c = false) Iff.rfl

/-- `p` is a route of walkable cells from `s` to `e` whose consecutive cells
are 4-adjacent. -/
def IsPath (g : Grid) (s e : Cell) (p : List Cell) : Prop :=
  p.head? = some s ∧ p.getLast? = some e ∧ (∀ c ∈ p, Walkable g c) ∧ p.Chain' FourAdj

/-- There is a route from `s` to `e` using exactly `n` edges. -/
def ReachIn (g : Grid) (s e : Cell) (n : Nat) : Prop :=
  ∃ p, IsPath g s e p ∧ p.length = n + 1

/-- `d` is the BFS shortest distance (minimum number of edges) from `s` to `e`. -/
def Dist (g : Grid) (s e : Cell) (d : Nat) : Prop :=
  ReachIn g s e d ∧ ∀ k, ReachIn g s e k → d ≤ k

/-- Some 4-connected walkable route joins `s` to `e`. -/
def Connected (g : Grid) (s e : Cell) : Prop := ∃ p, IsPath g s e p

theorem isPath_singleton {g : Grid} {s : Cell} (h : Walkable g s) :
    IsPath g s s [s] := by
  refine ⟨rfl, rfl, ?_, List.chain'_singleton s⟩
  intro c hc
  simp only [List.mem_singleton] at hc
  exact hc ▸ h

theorem isPath_walkable_start {g : Grid} {s e : Cell} {p : List Cell}
    (h : IsPath g s e p) : Walkable g s := by
  obtain ⟨hh, _, hw, _⟩ := h
  exact hw s (List.mem_of_mem_head? hh)

theorem isPath_walkable_end {g : Grid} {s e : Cell} {p : List Cell}
    (h : IsPath g s e p) : Walkable g e := by
  obtain ⟨_, hl, hw, _⟩ := h
  exact hw e (List.mem_of_mem_getLast? hl)

theorem reachIn_zero {g : Grid} {s e : Cell} (h : ReachIn g s e 0) :
    s = e ∧ Walkable g s := by
  obtain ⟨p, hp, hlen⟩ := h
  obtain ⟨c, rfl⟩ := List.length_eq_one.mp hlen
  obtain ⟨hh, hl, hw, _⟩ := hp
  simp only [List.head?_cons, Option.some.injEq] at hh
  simp only [List.getLast?_singleton, Option.some.injEq] at hl
  subst hh; subst hl
  exact ⟨rfl, hw _ (List.mem_singleton.mpr rfl)⟩

theorem reachIn_zero_of {g : Grid} {s : Cell} (h : Walkable g s) :
    ReachIn g s s 0 :=
  ⟨[s], isPath_singleton h, rfl⟩

/-- Extend a path by one adjacent walkable cell at the end. -/
theorem isPath_snoc {g : Grid} {s w x : Cell} {p : List Cell}
    (hp : IsPath g s w p) (hadj : FourAdj w x) (hx : Walkable g x) :
    IsPath g s x (p ++ [x]) := by
  obtain ⟨hh, hl, hw, hc⟩ := hp
  have hpne : p ≠ [] := by rintro rfl; simp at hh
  refine ⟨?_, ?_, ?_, ?_⟩
  · rwa [List.head?_append_of_ne_nil _ hpne]
  · simp [List.getLast?_append]
  · intro c hc'
    rcases List.mem_append.mp hc' with h | h
    · exact hw c h
    · simp only [List.mem_singleton] at h
      exact h ▸ hx
  · rw [List.chain'_append]
    refine ⟨hc, List.chain'_singleton x, ?_⟩
    intro a ha b hb
    simp only [List.head?_cons, Option.mem_def, Option.some.injEq] at hb
    subst hb
    rw [hl] at ha
    simp only [Option.mem_def, Option.some.injEq] at ha
    subst ha
    exact hadj

theorem reachIn_snoc {g : Grid} {s w x : Cell} {n : Nat}
    (h : ReachIn g s w n) (hadj : FourAdj w x) (hx : Walkable g x) :
    ReachIn g s x (n + 1) := by
  obtain ⟨p, hp, hlen⟩ := h
  exact ⟨p ++ [x], isPath_snoc hp hadj hx, by simp [hlen]⟩

/-- Peel the final edge off a path with at least one edge. -/
theorem reachIn_succ_elim {g : Grid} {s e : Cell} {n : Nat}
    (h : ReachIn g s e (n + 1)) :
    ∃ w, ReachIn g s w n ∧ FourAdj w e ∧ Walkable g e := by
  obtain ⟨p, hp, hlen⟩ := h
  obtain ⟨hh, hl, hw, hc⟩ := hp
  have hpne : p ≠ [] := by rintro rfl; simp at hlen
  -- p = p.dropLast ++ [e]
  have he : p.getLast hpne = e := by
    have := List.getLast?_eq_getLast p hpne
    rw [hl] at this
    exact (Option.some.injEq _ _ ▸ this.symm : _)
  have hsplit : p = p.dropLast ++ [e] := by
    conv_lhs => rw [← List.dropLast_append_getLast hpne]
    rw [he]
  have hqlen : p.dropLast.length = n + 1 := by
    have := List.length_dropLast p
    omega
  have hqne : p.dropLast ≠ [] := by
    intro h0
    rw [h0] at hqlen
    simp at hqlen
  have hqlast : ∃ w, p.dropLast.getLast? = some w := by
    cases hq : p.dropLast.getLast? with
    | none => exact absurd (List.getLast?_eq_none_iff.mp hq) hqne
    | some w => exact ⟨w, rfl⟩
  obtain ⟨w, hwlast⟩ := hqlast
  rw [hsplit] at hc
  rw [List.chain'_append] at hc
  obtain ⟨hcq, _, hlink⟩ := hc
  have hadj : FourAdj w e := hlink w (by rwa [Option.mem_def]) e (by simp)
  refine ⟨w, ⟨p.dropLast, ⟨?_, hwlast, ?_, hcq⟩, hqlen⟩, hadj, ?_⟩
  · rw [hsplit] at hh
    rwa [List.head?_append_of_ne_nil _ hqne] at hh
  · intro c hcmem
    exact hw c (by rw [hsplit]; exact List.mem_append_left _ hcmem)
  · exact hw e (List.mem_of_mem_getLast? hl)

/-- Every set of attained edge-counts has a minimum: connectivity yields a
shortest distance. -/
theorem exists_dist {g : Grid} {s e : Cell} (h : Connected g s e) :
    ∃ d, Dist g s e d := by
  obtain ⟨p, hp⟩ := h
  have hne : p ≠ [] := by rintro rfl; exact absurd hp.1 (by simp)
  have hlen : p.length = (p.length - 1) + 1 := by
    have := List.length_pos_of_ne_nil hne
    omega
  have hreach : ReachIn g s e (p.length - 1) := ⟨p, hp, hlen.symm ▸ rfl⟩
  clear hp hne hlen
  generalize hN : p.length - 1 = N at hreach
  clear hN p
  induction N using Nat.strong_induction_on with
  | _ N ih =>
    by_cases hmin : ∀ k, ReachIn g s e k → N ≤ k
    · exact ⟨N, hreach, hmin⟩
    · push_neg at hmin
      obtain ⟨k, hk, hlt⟩ := hmin
      exact ih k hlt hk

theorem dist_unique {g : Grid} {s e : Cell} {d d' : Nat}
    (h : Dist g s e d) (h' : Dist g s e d') : d = d' :=
  Nat.le_antisymm (h.2 d' h'.1) (h'.2 d h.1)

theorem dist_le_of_reachIn {g : Grid} {s e : Cell} {d k : Nat}
    (h : Dist g s e d) (hk : ReachIn g s e k) : d ≤ k := h.2 k hk

/-! ## The BFS of FindPathBFS -/

/-- The live loop state of `FindPathBFS`: the not-yet-popped tail of the
queue array (`queue[head..tail)`), the `visited` array and the `parent`
array (`parent[start] = (-1,-1)` is modelled as `none`). -/
structure BfsState where
  pending : List Cell
  visited : Cell → Bool
  parent : Cell → Option Cell

/-- The neighbours of `c` passing the `!visited[...] && !walls[...]` check,
i.e. the cells enqueued when `c` is popped. -/
def bfsNs (g : Grid) (c : Cell) (v : Cell → Bool) : List Cell :=
  (neighbors c).filter fun n => !v n && !g n

/-- One iteration of the BFS while-loop after popping `c` (the `for i < 4`
neighbour scan).  The C code marks `visited`/`parent` one neighbour at a
time; since the four candidate neighbours of a cell are pairwise distinct
this equals the batch update below. -/
def bfsStep (g : Grid) (c : Cell) (rest : List Cell)
    (v : Cell → Bool) (par : Cell → Option Cell) : BfsState :=
  { pending := rest ++ bfsNs g c v
    visited := fun n => v n || decide (n ∈ bfsNs g c v)
    parent := fun n => if n ∈ bfsNs g c v then some c else par n }

/-- The `while (head < tail)` loop.  The fuel strictly exceeds the greatest
possible number of iterations (each iteration pops one queued cell and every
cell is enqueued at most once, so at most `GRID_SIZE * GRID_SIZE` pops
occur); the completeness lemma below shows the fuel is never exhausted. -/
def bfsLoop (g : Grid) (e : Cell) : Nat → BfsState → Option (Cell → Option Cell)
  | 0, _ => none
  | fuel + 1, st =>
    match st.pending with
    | [] => none
    | c :: rest =>
      if c = e then some st.parent
      else bfsLoop g e fuel (bfsStep g c rest st.visited st.parent)

/-- The parent-pointer walk
`while (current.x != -1) { path[pathLength++] = current; ... }`;
the fuel is the capacity of the `path` buffer. -/
def reconstruct (par : Cell → Option Cell) : Nat → Cell → List Cell
  | 0, _ => []
  | fuel + 1, c =>
    match par c with
    | none => [c]
    | some p => c :: reconstruct par fuel p

def initialState (s : Cell) : BfsState :=
  { pending := [s]
    visited := fun c => decide (c = s)
    parent := fun _ => none }

/-- `bool FindPathBFS(Vector2 start, Vector2 end)`: `some p` models a `true`
return with the global `path[0..pathLength)` equal to `p`; `none` models a
`false` return (in which case the C function returns before writing to
`path`/`pathLength`). -/
def findPathBFS (g : Grid) (s e : Cell) : Option (List Cell) :=
  if g s || g e then none
  else
    match bfsLoop g e (2 * (GRID_SIZE * GRID_SIZE) + 1) (initialState s) with
    | none => none
    | some par => some ((reconstruct par (GRID_SIZE * GRID_SIZE) e).reverse)

/-! ## BFS loop invariant

`dm` is a ghost map recording the discovery distance of every visited cell.
The fields mirror the classic BFS argument: visited cells carry their true
shortest distance and a parent pointer one step closer to the start, the
queue is sorted by distance and spans at most two distance layers, every
dequeued ("processed") cell has all its walkable neighbours visited, and
every cell strictly below the queue-head distance has been processed. -/

structure BfsInv (g : Grid) (s e : Cell) (dm : Cell → Nat) (st : BfsState) : Prop where
  start_vis : st.visited s = true
  start_par : st.parent s = none
  start_dm : dm s = 0
  start_walk : Walkable g s
  vis_dist : ∀ c, st.visited c = true → Walkable g c ∧ Dist g s c (dm c)
  par_chain : ∀ c, st.visited c = true → c ≠ s →
    ∃ p, st.parent c = some p ∧ st.visited p = true ∧ FourAdj p c ∧ dm c = dm p + 1
  pend_vis : ∀ c ∈ st.pending, st.visited c = true
  pend_nodup : st.pending.Nodup
  pend_sorted : st.pending.Pairwise (fun a b => dm a ≤ dm b)
  pend_window : ∀ a ∈ st.pending, ∀ b ∈ st.pending, dm b ≤ dm a + 1
  closed : ∀ c, st.visited c = true → c ∉ st.pending →
    ∀ n ∈ neighbors c, g n = false → st.visited n = true
  horizon : ∀ w k, ReachIn g s w k →
    (∀ h t, st.pending = h :: t → k < dm h) →
    st.visited w = true ∧ w ∉ st.pending
  target_pending : st.visited e = true → e ∈ st.pending

/-- The start cell can only sit at the head of the queue. -/
theorem bfsInv_start_head {g : Grid} {s e : Cell} {dm : Cell → Nat}
    {c : Cell} {rest : List Cell} {v : Cell → Bool} {par : Cell → Option Cell}
    (inv : BfsInv g s e dm ⟨c :: rest, v, par⟩) : s ∉ rest := by
  intro hmem
  have hsorted := inv.pend_sorted
  rw [List.pairwise_cons] at hsorted
  have hle : dm c ≤ dm s := hsorted.1 s hmem
  rw [inv.start_dm] at hle
  have hdm0 : dm c = 0 := Nat.le_zero.mp hle
  have hvc : v c = true := inv.pend_vis c (by simp)
  have hdist := (inv.vis_dist c hvc).2
  rw [hdm0] at hdist
  have := (reachIn_zero hdist.1).1
  subst this
  have hnodup := inv.pend_nodup
  rw [List.nodup_cons] at hnodup
  exact hnodup.1 hmem

theorem bfsInv_initial {g : Grid} {s : Cell} (e : Cell) (hs : Walkable g s) :
    BfsInv g s e (fun _ => 0) (initialState s) := by
  have hvis : ∀ c, (initialState s).visited c = true ↔ c = s := by
    intro c
    simp [initialState]
  refine ⟨?_, ?_, rfl, hs, ?_, ?_, ?_, ?_, ?_, ?_, ?_, ?_, ?_⟩
  · simp [initialState]
  · rfl
  · intro c hc
    rw [hvis] at hc
    subst hc
    exact ⟨hs, reachIn_zero_of hs, fun k _ => Nat.zero_le k⟩
  · intro c hc hne
    rw [hvis] at hc
    exact absurd hc hne
  · intro c hc
    simp only [initialState, List.mem_singleton] at hc
    subst hc
    simp [initialState]
  · simp [initialState]
  · simp [initialState]
  · intro a ha b hb
    simp only [initialState, List.mem_singleton] at ha hb
    omega
  · intro c hc hnp
    rw [hvis] at hc
    subst hc
    exact absurd (by simp [initialState]) hnp
  · intro w k _ hhor
    have := hhor s [] rfl
    omega
  · intro hv
    rw [hvis] at hv
    subst hv
    simp [initialState]

theorem mem_bfsNs {g : Grid} {c : Cell} {v : Cell → Bool} {n : Cell} :
    n ∈ bfsNs g c v ↔ n ∈ neighbors c ∧ v n = false ∧ g n = false := by
  unfold bfsNs
  rw [List.mem_filter]
  simp only [Bool.and_eq_true, Bool.not_eq_true']

theorem bfsNs_nodup (g : Grid) (c : Cell) (v : Cell → Bool) : (bfsNs g c v).Nodup :=
  (neighbors_nodup c).filter _

/-- The discovery-distance map after popping `c`: newly enqueued cells are one
layer beyond `c`. -/
def bumpDm (g : Grid) (c : Cell) (v : Cell → Bool) (dm : Cell → Nat) : Cell → Nat :=
  fun x => if x ∈ bfsNs g c v then dm c + 1 else dm x

/-- The BFS invariant is preserved across one loop iteration that pops a
cell other than the target. -/
theorem bfsInv_step {g : Grid} {s e : Cell} {dm : Cell → Nat} {c : Cell}
    {rest : List Cell} {v : Cell → Bool} {par : Cell → Option Cell}
    (inv : BfsInv g s e dm ⟨c :: rest, v, par⟩) (hce : c ≠ e) :
    BfsInv g s e (bumpDm g c v dm) (bfsStep g c rest v par) := by
  have hSvis : v s = true := inv.start_vis
  have hSpar : par s = none := inv.start_par
  have hvc : v c = true := inv.pend_vis c (by simp)
  have hwc : Walkable g c := (inv.vis_dist c hvc).1
  have hdistc : Dist g s c (dm c) := (inv.vis_dist c hvc).2
  have hnsF : ∀ n ∈ bfsNs g c v, n ∈ neighbors c ∧ v n = false ∧ g n = false :=
    fun n hn => mem_bfsNs.mp hn
  have hnsWalk : ∀ n ∈ bfsNs g c v, Walkable g n := fun n hn =>
    ⟨neighbors_inGrid (hnsF n hn).1, (hnsF n hn).2.2⟩
  have hdm_vis : ∀ x, v x = true → bumpDm g c v dm x = dm x := by
    intro x hx
    unfold bumpDm
    rw [if_neg]
    intro hmem
    rw [(hnsF x hmem).2.1] at hx
    exact Bool.noConfusion hx
  have hdm_ns : ∀ x ∈ bfsNs g c v, bumpDm g c v dm x = dm c + 1 := by
    intro x hx
    unfold bumpDm
    rw [if_pos hx]
  have hdm_c : bumpDm g c v dm c = dm c := hdm_vis c hvc
  have hheadmin : ∀ a ∈ c :: rest, dm c ≤ dm a := by
    intro a ha
    rcases List.mem_cons.mp ha with rfl | ha
    · exact le_refl _
    · exact (List.pairwise_cons.mp inv.pend_sorted).1 a ha
  have hwindowc : ∀ b ∈ c :: rest, dm b ≤ dm c + 1 :=
    fun b hb => inv.pend_window c (by simp) b hb
  have hrest_sub : ∀ x ∈ rest, v x = true := fun x hx => inv.pend_vis x (by simp [hx])
  -- distance correctness for every cell visited after the step
  have hvis_dist : ∀ x, (v x = true ∨ x ∈ bfsNs g c v) →
      Walkable g x ∧ Dist g s x (bumpDm g c v dm x) := by
    intro x hx
    rcases hx with hx | hx
    · rw [hdm_vis x hx]
      exact inv.vis_dist x hx
    · rw [hdm_ns x hx]
      obtain ⟨hnb, hxv, hxg⟩ := hnsF x hx
      have hwx : Walkable g x := ⟨neighbors_inGrid hnb, hxg⟩
      refine ⟨hwx, reachIn_snoc hdistc.1 ((mem_neighbors hwc.1).mp hnb) hwx, ?_⟩
      intro k hk
      by_contra hlt
      push_neg at hlt
      match k, hlt with
      | 0, _ =>
        obtain ⟨heq, -⟩ := reachIn_zero hk
        rw [← heq] at hxv
        rw [hSvis] at hxv
        exact Bool.noConfusion hxv
      | j + 1, hlt =>
        obtain ⟨w, hw_reach, hadj_wx, -⟩ := reachIn_succ_elim hk
        have hproc := inv.horizon w j hw_reach (by
          intro h t hpt
          injection hpt with h1 h2
          subst h1
          omega)
        have hvx : v x = true := inv.closed w hproc.1 hproc.2 x
          ((mem_neighbors hadj_wx.1).mpr hadj_wx) hxg
        rw [hxv] at hvx
        exact Bool.noConfusion hvx
  -- parent chains for every cell visited after the step
  have hpar_chain : ∀ x, (v x = true ∨ x ∈ bfsNs g c v) → x ≠ s →
      ∃ p, (if x ∈ bfsNs g c v then some c else par x) = some p ∧
        (v p = true ∨ p ∈ bfsNs g c v) ∧ FourAdj p x ∧
        bumpDm g c v dm x = bumpDm g c v dm p + 1 := by
    intro x hx hxs
    by_cases hxns : x ∈ bfsNs g c v
    · refine ⟨c, by rw [if_pos hxns], Or.inl hvc,
        (mem_neighbors hwc.1).mp (hnsF x hxns).1, ?_⟩
      rw [hdm_ns x hxns, hdm_c]
    · have hxv : v x = true := hx.resolve_right hxns
      obtain ⟨p, hp, hpv, hpadj, hpdm⟩ := inv.par_chain x hxv hxs
      refine ⟨p, by rw [if_neg hxns]; exact hp, Or.inl hpv, hpadj, ?_⟩
      rw [hdm_vis x hxv, hdm_vis p hpv]
      exact hpdm
  -- the new queue is duplicate-free
  have hnodup' : (rest ++ bfsNs g c v).Nodup := by
    rw [List.nodup_append]
    refine ⟨(List.nodup_cons.mp inv.pend_nodup).2, bfsNs_nodup g c v, ?_⟩
    intro x hx hx'
    have h1 := hrest_sub x hx
    rw [(hnsF x hx').2.1] at h1
    exact Bool.noConfusion h1
  have hdm_rest : ∀ x ∈ rest, bumpDm g c v dm x = dm x :=
    fun x hx => hdm_vis x (hrest_sub x hx)
  -- the new queue is still sorted by discovery distance
  have hsorted' : (rest ++ bfsNs g c v).Pairwise
      (fun a b => bumpDm g c v dm a ≤ bumpDm g c v dm b) := by
    rw [List.pairwise_append]
    refine ⟨?_, ?_, ?_⟩
    · refine ((List.pairwise_cons.mp inv.pend_sorted).2).imp_of_mem ?_
      intro a b ha hb hab
      rw [hdm_rest a ha, hdm_rest b hb]
      exact hab
    · refine (bfsNs_nodup g c v).imp_of_mem ?_
      intro a b ha hb _
      rw [hdm_ns a ha, hdm_ns b hb]
    · intro a ha b hb
      rw [hdm_rest a ha, hdm_ns b hb]
      exact hwindowc a (by simp [ha])
  -- and still spans at most two layers
  have hval : ∀ x ∈ rest ++ bfsNs g c v,
      dm c ≤ bumpDm g c v dm x ∧ bumpDm g c v dm x ≤ dm c + 1 := by
    intro x hx
    rcases List.mem_append.mp hx with hx | hx
    · rw [hdm_rest x hx]
      exact ⟨hheadmin x (by simp [hx]), hwindowc x (by simp [hx])⟩
    · rw [hdm_ns x hx]
      omega
  have hwindow' : ∀ a ∈ rest ++ bfsNs g c v, ∀ b ∈ rest ++ bfsNs g c v,
      bumpDm g c v dm b ≤ bumpDm g c v dm a + 1 := by
    intro a ha b hb
    have h1 := hval a ha
    have h2 := hval b hb
    omega
  -- processed cells (now including c) still have all walkable neighbours visited
  have hclosed' : ∀ x, (v x = true ∨ x ∈ bfsNs g c v) → x ∉ rest ++ bfsNs g c v →
      ∀ n ∈ neighbors x, g n = false → (v n = true ∨ n ∈ bfsNs g c v) := by
    intro x hx hnp n hn hgn
    rcases hx with hx | hx
    · by_cases hxc : x = c
      · subst hxc
        by_cases hvn : v n = true
        · exact Or.inl hvn
        · exact Or.inr (mem_bfsNs.mpr ⟨hn, Bool.eq_false_iff.mpr hvn, hgn⟩)
      · have hxnp : x ∉ c :: rest := by
          intro hmem
          rcases List.mem_cons.mp hmem with h | hmem
          · exact hxc h
          · exact hnp (List.mem_append_left _ hmem)
        exact Or.inl (inv.closed x hx hxnp n hn hgn)
    · exact absurd (List.mem_append_right _ hx) hnp
  -- head-minimality of the new queue
  have hmin : ∀ h t, rest ++ bfsNs g c v = h :: t →
      ∀ x ∈ rest ++ bfsNs g c v, bumpDm g c v dm h ≤ bumpDm g c v dm x := by
    intro h t hht x hx
    have hs2 := hsorted'
    rw [hht] at hs2 hx
    rcases List.mem_cons.mp hx with rfl | hx
    · exact le_refl _
    · exact (List.pairwise_cons.mp hs2).1 x hx
  -- every route of edge-count below the new head layer ends in a processed cell
  have hhor' : ∀ k w, ReachIn g s w k →
      (∀ h t, rest ++ bfsNs g c v = h :: t → k < bumpDm g c v dm h) →
      (v w = true ∨ w ∈ bfsNs g c v) ∧ w ∉ rest ++ bfsNs g c v := by
    intro k
    induction k using Nat.strong_induction_on with
    | _ k ih =>
      intro w hreach hhd
      match k with
      | 0 =>
        obtain ⟨heq, -⟩ := reachIn_zero hreach
        subst heq
        refine ⟨Or.inl hSvis, ?_⟩
        intro hsp
        rcases List.mem_append.mp hsp with h | h
        · exact bfsInv_start_head inv h
        · have h1 := (hnsF s h).2.1
          rw [hSvis] at h1
          exact Bool.noConfusion h1
      | j + 1 =>
        obtain ⟨w₂, hreach₂, hadj, hwalkw⟩ := reachIn_succ_elim hreach
        obtain ⟨hv₂, hnp₂⟩ := ih j (by omega) w₂ hreach₂ (by
          intro h t hht
          have := hhd h t hht
          omega)
        have hvw : v w = true ∨ w ∈ bfsNs g c v :=
          hclosed' w₂ hv₂ hnp₂ w ((mem_neighbors hadj.1).mpr hadj) hwalkw.2
        refine ⟨hvw, ?_⟩
        intro hwp
        obtain ⟨h, t, hht⟩ : ∃ h t, rest ++ bfsNs g c v = h :: t := by
          cases hq : rest ++ bfsNs g c v with
          | nil =>
            rw [hq] at hwp
            exact absurd hwp (List.not_mem_nil w)
          | cons a l => exact ⟨a, l, rfl⟩
        have h1 : j + 1 < bumpDm g c v dm h := hhd h t hht
        have h2 : bumpDm g c v dm h ≤ bumpDm g c v dm w := hmin h t hht w hwp
        have h3 : bumpDm g c v dm w ≤ j + 1 := (hvis_dist w hvw).2.2 (j + 1) hreach
        omega
  -- the target, once visited, is still queued (it has not been popped)
  have htp' : (v e = true ∨ e ∈ bfsNs g c v) → e ∈ rest ++ bfsNs g c v := by
    rintro (hv | hns)
    · have hmem := inv.target_pending hv
      rcases List.mem_cons.mp hmem with h | hmem
      · exact absurd h.symm hce
      · exact List.mem_append_left _ hmem
    · exact List.mem_append_right _ hns
  -- assemble the invariant for the post-step state
  rw [show bfsStep g c rest v par =
    ⟨rest ++ bfsNs g c v, fun n => v n || decide (n ∈ bfsNs g c v),
      fun n => if n ∈ bfsNs g c v then some c else par n⟩ from rfl]
  have hv'_iff : ∀ x, (v x || decide (x ∈ bfsNs g c v)) = true ↔
      (v x = true ∨ x ∈ bfsNs g c v) := by
    intro x
    simp [Bool.or_eq_true, decide_eq_true_eq]
  refine ⟨?_, ?_, ?_, inv.start_walk, ?_, ?_, ?_, hnodup', hsorted',
    hwindow', ?_, ?_, ?_⟩
  · exact (hv'_iff s).mpr (Or.inl hSvis)
  · show (if s ∈ bfsNs g c v then some c else par s) = none
    rw [if_neg, hSpar]
    intro hmem
    have h1 := (hnsF s hmem).2.1
    rw [hSvis] at h1
    exact Bool.noConfusion h1
  · show bumpDm g c v dm s = 0
    rw [hdm_vis s hSvis, inv.start_dm]
  · intro x hx
    exact hvis_dist x ((hv'_iff x).mp hx)
  · intro x hx hxs
    obtain ⟨p, hpeq, hpv, hpadj, hpdm⟩ := hpar_chain x ((hv'_iff x).mp hx) hxs
    exact ⟨p, hpeq, (hv'_iff p).mpr hpv, hpadj, hpdm⟩
  · intro x hx
    rcases List.mem_append.mp hx with hx | hx
    · exact (hv'_iff x).mpr (Or.inl (hrest_sub x hx))
    · exact (hv'_iff x).mpr (Or.inr hx)
  · intro x hx hnp n hn hgn
    exact (hv'_iff n).mpr (hclosed' x ((hv'_iff x).mp hx) hnp n hn hgn)
  · intro w k hreach hhd
    obtain ⟨h1, h2⟩ := hhor' k w hreach hhd
    exact ⟨(hv'_iff w).mpr h1, h2⟩
  · intro hv
    exact htp' ((hv'_iff e).mp hv)

theorem connected_reachIn {g : Grid} {s e : Cell} (h : Connected g s e) :
    ∃ k, ReachIn g s e k := by
  obtain ⟨p, hp⟩ := h
  have hne : p ≠ [] := by rintro rfl; exact absurd hp.1 (by simp)
  exact ⟨p.length - 1, p, hp, by have := List.length_pos_of_ne_nil hne; omega⟩

/-- Soundness of the loop: a returned parent map comes from a state
satisfying the invariant in which the target has been visited. -/
theorem bfsLoop_sound {g : Grid} {s e : Cell} :
    ∀ (fuel : Nat) (dm : Cell → Nat) (st : BfsState),
      BfsInv g s e dm st → ∀ par, bfsLoop g e fuel st = some par →
      ∃ dm' st', BfsInv g s e dm' st' ∧ st'.parent = par ∧
        st'.visited e = true := by
  intro fuel
  induction fuel with
  | zero =>
    intro dm st _ par h
    exact absurd h (by simp [bfsLoop])
  | succ n ih =>
    intro dm st inv par h
    obtain ⟨pend, v, par0⟩ := st
    cases pend with
    | nil => exact absurd h (by simp [bfsLoop])
    | cons c rest =>
      by_cases hce : c = e
      · subst hce
        have hpar : par0 = par := by
          have h2 : (if c = c then some par0
              else bfsLoop g c n (bfsStep g c rest v par0)) = some par := h
          rw [if_pos rfl] at h2
          exact Option.some.injEq _ _ ▸ h2
        refine ⟨dm, ⟨c :: rest, v, par0⟩, inv, hpar, ?_⟩
        exact inv.pend_vis c (by simp)
      · have h2 : (if c = e then some par0
            else bfsLoop g e n (bfsStep g c rest v par0)) = some par := h
        rw [if_neg hce] at h2
        exact ih (bumpDm g c v dm) _ (bfsInv_step inv hce) par h2

/-! ## Termination of the loop -/

def unvisitedCount (v : Cell → Bool) : Nat :=
  (((Finset.range GRID_SIZE) ×ˢ (Finset.range GRID_SIZE)).filter fun c =>
    v c = false).card

def bfsMeasure (st : BfsState) : Nat :=
  2 * unvisitedCount st.visited + st.pending.length

/-- Each step visits exactly the cells it enqueues. -/
theorem unvisitedCount_step (g : Grid) (c : Cell) (v : Cell → Bool) :
    unvisitedCount (fun n => v n || decide (n ∈ bfsNs g c v)) + (bfsNs g c v).length
      = unvisitedCount v := by
  classical
  unfold unvisitedCount
  have hsub : (bfsNs g c v).toFinset ⊆
      ((Finset.range GRID_SIZE) ×ˢ (Finset.range GRID_SIZE)).filter fun x =>
        v x = false := by
    intro x hx
    rw [List.mem_toFinset] at hx
    obtain ⟨hnb, hxv, -⟩ := mem_bfsNs.mp hx
    have hgrid := neighbors_inGrid hnb
    rw [Finset.mem_filter, Finset.mem_product]
    exact ⟨⟨Finset.mem_range.mpr hgrid.1, Finset.mem_range.mpr hgrid.2⟩, hxv⟩
  have heq : ((Finset.range GRID_SIZE) ×ˢ (Finset.range GRID_SIZE)).filter
      (fun x => (v x || decide (x ∈ bfsNs g c v)) = false) =
      (((Finset.range GRID_SIZE) ×ˢ (Finset.range GRID_SIZE)).filter fun x =>
        v x = false) \ (bfsNs g c v).toFinset := by
    ext x
    simp only [Finset.mem_filter, Finset.mem_sdiff, List.mem_toFinset,
      Bool.or_eq_false_iff, decide_eq_false_iff_not]
    tauto
  rw [heq, Finset.card_sdiff hsub, List.toFinset_card_of_nodup (bfsNs_nodup g c v)]
  have hle := Finset.card_le_card hsub
  rw [List.toFinset_card_of_nodup (bfsNs_nodup g c v)] at hle
  omega

/-- Completeness: while the invariant holds and the target is reachable, the
loop (with fuel at least the measure) succeeds. -/
theorem bfsLoop_complete {g : Grid} {s e : Cell} :
    ∀ (fuel : Nat) (dm : Cell → Nat) (st : BfsState),
      BfsInv g s e dm st → Connected g s e → bfsMeasure st ≤ fuel →
      ∃ par, bfsLoop g e fuel st = some par := by
  intro fuel
  induction fuel with
  | zero =>
    intro dm st inv hconn hm
    exfalso
    obtain ⟨pend, v, par0⟩ := st
    cases pend with
    | nil =>
      obtain ⟨k, hk⟩ := connected_reachIn hconn
      have hvis := (inv.horizon e k hk (fun h t ht => List.noConfusion ht)).1
      exact List.not_mem_nil e (inv.target_pending hvis)
    | cons c rest =>
      unfold bfsMeasure at hm
      simp only [List.length_cons] at hm
      omega
  | succ n ih =>
    intro dm st inv hconn hm
    obtain ⟨pend, v, par0⟩ := st
    cases pend with
    | nil =>
      exfalso
      obtain ⟨k, hk⟩ := connected_reachIn hconn
      have hvis := (inv.horizon e k hk (fun h t ht => List.noConfusion ht)).1
      exact List.not_mem_nil e (inv.target_pending hvis)
    | cons c rest =>
      by_cases hce : c = e
      · subst hce
        refine ⟨par0, ?_⟩
        show (if c = c then some par0
            else bfsLoop g c n (bfsStep g c rest v par0)) = some par0
        rw [if_pos rfl]
      · have hm' : bfsMeasure (bfsStep g c rest v par0) ≤ n := by
          have hstep := unvisitedCount_step g c v
          unfold bfsMeasure at hm ⊢
          simp only [bfsStep, List.length_append, List.length_cons] at hm ⊢
          omega
        obtain ⟨par, hpar⟩ := ih (bumpDm g c v dm) _ (bfsInv_step inv hce) hconn hm'
        refine ⟨par, ?_⟩
        show (if c = e then some par0
            else bfsLoop g e n (bfsStep g c rest v par0)) = some par
        rw [if_neg hce]
        exact hpar

/-! ## Path reconstruction -/

theorem reconstruct_none {par : Cell → Option Cell} {c : Cell}
    (h : par c = none) (fuel : Nat) : reconstruct par (fuel + 1) c = [c] := by
  unfold reconstruct
  rw [h]

theorem reconstruct_some {par : Cell → Option Cell} {c p : Cell}
    (h : par c = some p) (fuel : Nat) :
    reconstruct par (fuel + 1) c = c :: reconstruct par fuel p := by
  simp only [reconstruct]
  rw [h]


/-- Walking the parent pointers from any visited cell yields (after the
final reverse) a path from the start whose cell count is one more than the
discovery distance. -/
theorem reconstruct_spec {g : Grid} {s e : Cell} {dm : Cell → Nat} {st : BfsState}
    (inv : BfsInv g s e dm st) :
    ∀ (d : Nat) (c : Cell), st.visited c = true → dm c = d → ∀ fuel, d < fuel →
      IsPath g s c ((reconstruct st.parent fuel c).reverse) ∧
      (reconstruct st.parent fuel c).length = d + 1 ∧
      (reconstruct st.parent fuel c).Nodup ∧
      (∀ x ∈ reconstruct st.parent fuel c, st.visited x = true ∧ dm x ≤ d) := by
  intro d
  induction d using Nat.strong_induction_on with
  | _ d ih =>
    intro c hvc hdc fuel hfuel
    match fuel, hfuel with
    | f + 1, hfuel =>
      by_cases hcs : c = s
      · subst hcs
        have hd0 : d = 0 := by rw [← hdc, inv.start_dm]
        have hrec : reconstruct st.parent (f + 1) c = [c] :=
          reconstruct_none inv.start_par f
        rw [hrec]
        subst hd0
        refine ⟨isPath_singleton inv.start_walk, rfl, List.nodup_singleton c, ?_⟩
        intro x hx
        rw [List.mem_singleton] at hx
        subst hx
        exact ⟨hvc, le_of_eq hdc⟩
      · obtain ⟨p, hpar, hpv, hpadj, hpdm⟩ := inv.par_chain c hvc hcs
        have hdp : dm p = d - 1 := by omega
        have hd1 : 1 ≤ d := by omega
        have hrec : reconstruct st.parent (f + 1) c = c :: reconstruct st.parent f p :=
          reconstruct_some hpar f
        rw [hrec]
        obtain ⟨hpath, hlen, hnd, hmem⟩ :=
          ih (d - 1) (by omega) p hpv hdp f (by omega)
        have hwcx : Walkable g c := (inv.vis_dist c hvc).1
        refine ⟨?_, ?_, ?_, ?_⟩
        · rw [List.reverse_cons]
          exact isPath_snoc hpath hpadj hwcx
        · simp only [List.length_cons, hlen]
          omega
        · rw [List.nodup_cons]
          refine ⟨?_, hnd⟩
          intro hcmem
          have := (hmem c hcmem).2
          omega
        · intro x hx
          rcases List.mem_cons.mp hx with rfl | hx
          · exact ⟨hvc, le_of_eq hdc⟩
          · exact ⟨(hmem x hx).1, le_trans (hmem x hx).2 (by omega)⟩

theorem nodup_inGrid_length_le {l : List Cell} (hnd : l.Nodup)
    (hin : ∀ x ∈ l, inGrid x) : l.length ≤ GRID_SIZE * GRID_SIZE := by
  classical
  have hsub : l.toFinset ⊆ (Finset.range GRID_SIZE) ×ˢ (Finset.range GRID_SIZE) := by
    intro x hx
    rw [List.mem_toFinset] at hx
    have hmem := hin x hx
    rw [Finset.mem_product]
    exact ⟨Finset.mem_range.mpr hmem.1, Finset.mem_range.mpr hmem.2⟩
  have hcard := Finset.card_le_card hsub
  rw [List.toFinset_card_of_nodup hnd, Finset.card_product,
    Finset.card_range] at hcard
  exact hcard

/-- Discovery distances are below the number of grid cells: the parent chain
has pairwise distinct cells, one per distance layer. -/
theorem bfsInv_dm_lt {g : Grid} {s e : Cell} {dm : Cell → Nat} {st : BfsState}
    (inv : BfsInv g s e dm st) {c : Cell} (hvc : st.visited c = true) :
    dm c + 1 ≤ GRID_SIZE * GRID_SIZE := by
  obtain ⟨-, hlen, hnd, hmem⟩ :=
    reconstruct_spec inv (dm c) c hvc rfl (dm c + 1) (by omega)
  have hin : ∀ x ∈ reconstruct st.parent (dm c + 1) c, inGrid x := fun x hx =>
    ((inv.vis_dist x (hmem x hx).1).1).1
  have hle := nodup_inGrid_length_le hnd hin
  rw [hlen] at hle
  exact hle

/-! ## End-to-end correctness of FindPathBFS -/

/-- On walkable, connected endpoints `FindPathBFS` succeeds; the returned
path is a route from `s` to `e` and its cell count is the shortest distance
(edge count) plus one. -/
theorem findPathBFS_correct {g : Grid} {s e : Cell}
    (hs : Walkable g s) (he : Walkable g e) (hconn : Connected g s e) :
    ∃ p d, findPathBFS g s e = some p ∧ IsPath g s e p ∧ Dist g s e d ∧
      p.length = d + 1 := by
  have hinv0 := bfsInv_initial e hs
  have hm0 : bfsMeasure (initialState s) ≤ 2 * (GRID_SIZE * GRID_SIZE) + 1 := by
    have hle : unvisitedCount (initialState s).visited ≤ GRID_SIZE * GRID_SIZE := by
      unfold unvisitedCount
      have h2 := Finset.card_filter_le
        ((Finset.range GRID_SIZE) ×ˢ (Finset.range GRID_SIZE))
        (fun c => (initialState s).visited c = false)
      rwa [Finset.card_product, Finset.card_range] at h2
    unfold bfsMeasure
    have hpl : (initialState s).pending.length = 1 := rfl
    omega
  obtain ⟨par, hpar⟩ := bfsLoop_complete _ _ _ hinv0 hconn hm0
  obtain ⟨dm', st', inv', hparent, hve⟩ := bfsLoop_sound _ _ _ hinv0 par hpar
  have hdmlt := bfsInv_dm_lt inv' hve
  obtain ⟨hpath, hlen, -, -⟩ :=
    reconstruct_spec inv' (dm' e) e hve rfl (GRID_SIZE * GRID_SIZE) (by omega)
  refine ⟨(reconstruct par (GRID_SIZE * GRID_SIZE) e).reverse, dm' e, ?_, ?_, ?_, ?_⟩
  · unfold findPathBFS
    rw [hs.2, he.2]
    simp only [Bool.or_self, Bool.false_eq_true, if_false]
    rw [hpar]
  · rw [← hparent]
    exact hpath
  · exact (inv'.vis_dist e hve).2
  · rw [← hparent, List.length_reverse]
    exact hlen

/-- Failure cases of `FindPathBFS`: a wall endpoint or a disconnected pair
makes it return `false` (before any write to the global path state). -/
theorem findPathBFS_failure {g : Grid} {s e : Cell}
    (hins : inGrid s) (_hine : inGrid e)
    (h : g s = true ∨ g e = true ∨ ¬ Connected g s e) :
    findPathBFS g s e = none := by
  by_cases hgs : g s = true
  · unfold findPathBFS
    rw [hgs]
    rfl
  · by_cases hge : g e = true
    · unfold findPathBFS
      rw [hge]
      simp
    · have hnc : ¬ Connected g s e := by
        rcases h with h | h | h
        · exact absurd h hgs
        · exact absurd h hge
        · exact h
      have hgs' : g s = false := Bool.eq_false_iff.mpr hgs
      have hge' : g e = false := Bool.eq_false_iff.mpr hge
      unfold findPathBFS
      rw [hgs', hge']
      simp only [Bool.or_self, Bool.false_eq_true, if_false]
      cases hloop : bfsLoop g e (2 * (GRID_SIZE * GRID_SIZE) + 1) (initialState s) with
      | none => rfl
      | some par =>
        exfalso
        obtain ⟨dm', st', inv', -, hve⟩ :=
          bfsLoop_sound _ _ _ (bfsInv_initial e ⟨hins, hgs'⟩) par hloop
        obtain ⟨q, hq, -⟩ := ((inv'.vis_dist e hve).2).1
        exact hnc ⟨q, hq⟩

/-- Executable check that consecutive cells of a list are 4-adjacent. -/
def chainAdjB : List Cell → Bool
  | [] => true
  | [_] => true
  | a :: b :: t => decide (FourAdj a b) && chainAdjB (b :: t)

theorem chainAdjB_iff : ∀ p : List Cell, chainAdjB p = true ↔ p.Chain' FourAdj
  | [] => by simp [chainAdjB]
  | [a] => by simp [chainAdjB]
  | a :: b :: t => by
    rw [chainAdjB]
    simp only [Bool.and_eq_true, decide_eq_true_eq]
    rw [List.chain'_cons, chainAdjB_iff (b :: t)]

instance (g : Grid) (s e : Cell) (p : List Cell) : Decidable (IsPath g s e p) :=
  decidable_of_iff (p.head? = some s ∧ p.getLast? = some e ∧
    (∀ c ∈ p, Walkable g c) ∧ chainAdjB p = true)
    (by simp only [chainAdjB_iff, IsPath])

/-- A concrete 10×10 grid on which only the cells (0,0) and (1,0) are
walkable. -/
def gridTwoCells : Grid := fun c =>
  !(decide (c = ((0, 0) : Cell)) || decide (c = ((1, 0) : Cell)))

/-- C1: the claim fails on its length clause.  On the grid where exactly
(0,0) and (1,0) are walkable, `FindPathBFS` succeeds and fills the path with
the two cells `[(0,0), (1,0)]`; the BFS shortest distance (minimum number of
edges) between start and end is 1, but the length of the produced cell
sequence is 2, not 1. -/
theorem claim_C1_counterexample :
    findPathBFS gridTwoCells (0, 0) (1, 0) = some [(0, 0), (1, 0)] ∧
    Dist gridTwoCells (0, 0) (1, 0) 1 ∧
    ([((0 : Nat), (0 : Nat)), (1, 0)] : List Cell).length ≠ 1 := by
  refine ⟨by decide, ⟨⟨[(0, 0), (1, 0)], by decide, rfl⟩, ?_⟩, by decide⟩
  intro k hk
  match k with
  | 0 =>
    obtain ⟨h, -⟩ := reachIn_zero hk
    exact absurd h (by decide)
  | k + 1 => omega

/-- C1 (amended): for every 10×10 wall grid and walkable, 4-connected start
and end cells, `FindPathBFS` returns success and fills the global path with
a sequence of cells whose consecutive cells are 4-adjacent, whose first cell
is start, whose last cell is end, and whose length equals the BFS shortest
distance (minimum number of edges) between start and end **plus one** (the
path lists cells, so it has exactly one more cell than it has edges). -/
theorem claim_C1 {g : Grid} {s e : Cell}
    (hs : Walkable g s) (he : Walkable g e) (hconn : Connected g s e) :
    ∃ p d, findPathBFS g s e = some p ∧
      p.head? = some s ∧ p.getLast? = some e ∧ p.Chain' FourAdj ∧
      Dist g s e d ∧ p.length = d + 1 := by
  obtain ⟨p, d, hfind, hpath, hdist, hlen⟩ := findPathBFS_correct hs he hconn
  exact ⟨p, d, hfind, hpath.1, hpath.2.1, hpath.2.2.2, hdist, hlen⟩

theorem claim_C1_witness :
    (Walkable gridTwoCells (0, 0) ∧ Walkable gridTwoCells (1, 0) ∧
      Connected gridTwoCells (0, 0) (1, 0)) ∧
    (∃ p d, findPathBFS gridTwoCells (0, 0) (1, 0) = some p ∧
      p.head? = some ((0, 0) : Cell) ∧ p.getLast? = some ((1, 0) : Cell) ∧
      p.Chain' FourAdj ∧ Dist gridTwoCells (0, 0) (1, 0) d ∧
      p.length = d + 1) :=
  have h1 : Walkable gridTwoCells (0, 0) := by decide
  have h2 : Walkable gridTwoCells (1, 0) := by decide
  have h3 : Connected gridTwoCells (0, 0) (1, 0) :=
    ⟨[(0, 0), (1, 0)], by decide⟩
  ⟨⟨h1, h2, h3⟩, claim_C1 h1 h2 h3⟩

/-- C6: for every grid where the start or the end cell is a wall, or where
no 4-connected walkable route connects start to end, `FindPathBFS` reports
failure (`none`, modelling a `false` return; the C function returns before
modifying the global `path`/`pathLength`). -/
theorem claim_C6 {g : Grid} {s e : Cell} (hins : inGrid s) (hine : inGrid e)
    (h : g s = true ∨ g e = true ∨ ¬ Connected g s e) :
    findPathBFS g s e = none :=
  findPathBFS_failure hins hine h

theorem claim_C6_witness :
    (inGrid ((2, 2) : Cell) ∧ inGrid ((1, 0) : Cell) ∧
      gridTwoCells (2, 2) = true) ∧
    findPathBFS gridTwoCells (2, 2) (1, 0) = none :=
  ⟨⟨by decide, by decide, by decide⟩,
    claim_C6 (by decide) (by decide) (Or.inl (by decide))⟩

/-! ## Tower and enemy data (src/main.c data structures)

Float stats whose decimal literals are not exactly representable in binary32
(for example `2.7f`, `0.2f`, `0.35f`) are modelled by their decimal values;
no claim proved below depends on those quantities.  The integer costs and
kill rewards are exact. -/

inductive TowerType
  | gun
  | slow
  | splash
deriving DecidableEq, Fintype

def MAX_TOWER_LEVEL : Nat := 4

structure TowerLevelStats where
  cost : Int
  range : ℚ
  damage : ℚ
  fireRate : ℚ
  splashRadius : ℚ
deriving DecidableEq

/-- `InitializeTowerStats` (ranges/radii premultiplied by `cellWidth` = 80).
The level index is the C `int`; levels beyond 3 are never reached (reading
them in C would be out of bounds) and are mapped to a zero record. -/
def g_towerStats : TowerType → Nat → TowerLevelStats
  | .gun, 0 => ⟨50, 200, 40, 2, 0⟩
  | .gun, 1 => ⟨75, 216, 65, 11/5, 0⟩
  | .gun, 2 => ⟨100, 240, 90, 5/2, 0⟩
  | .gun, 3 => ⟨150, 264, 130, 3, 0⟩
  | .slow, 0 => ⟨60, 160, 1/2, 1, 0⟩
  | .slow, 1 => ⟨80, 176, 2/5, 1, 0⟩
  | .slow, 2 => ⟨100, 192, 3/10, 1, 0⟩
  | .slow, 3 => ⟨140, 208, 1/5, 1, 0⟩
  | .splash, 0 => ⟨100, 176, 50, 4/5, 64⟩
  | .splash, 1 => ⟨120, 192, 70, 9/10, 72⟩
  | .splash, 2 => ⟨160, 208, 100, 1, 80⟩
  | .splash, 3 => ⟨220, 224, 140, 11/10, 88⟩
  | _, _ => ⟨0, 0, 0, 0, 0⟩

inductive EnemyTypeEnum
  | normal
  | scout
  | tank
  | boss
deriving DecidableEq, Fintype

structure EnemyType where
  speed : ℚ
  maxHealth : ℚ
  money : Int
  radius : ℚ
deriving DecidableEq

/-- `InitializeEnemyTypes` (colors are visual-only and omitted). -/
def enemyTypes : EnemyTypeEnum → EnemyType
  | .normal => ⟨4, 100, 5, 160/7⟩
  | .scout => ⟨8, 60, 8, 20⟩
  | .tank => ⟨2, 400, 15, 80/3⟩
  | .boss => ⟨3/2, 10000, 500, 40⟩

structure Enemy where
  pos : ℚ × ℚ
  type : EnemyTypeEnum
  pathIndex : Nat
  moveTimer : ℚ
  active : Bool
  health : ℚ
  maxHealth : ℚ
  speedMultiplier : ℚ
  slowTimer : ℚ
  progress : ℚ
deriving DecidableEq

instance : Inhabited Enemy :=
  ⟨⟨(0, 0), .normal, 0, 0, false, 0, 0, 1, 0, 0⟩⟩

/-- The live region `enemies[0..enemyCount)` of the fixed 150-slot array is
modelled as a list. -/
structure EnemyWave where
  enemies : List Enemy
  enemyCount : Int
  spawnTimer : ℚ
  enemiesSpawned : Nat
  isFinished : Bool
deriving DecidableEq

/-- The tower instance; `pos` stores the grid coordinates (the C code keeps
them in a float `Vector2`).  `level` indexes the 4-row stats table.  The
`-1` sentinel of `targetIndex` is kept as an `Int`.  `rotation` is written
by an `atan2f` call that is visual-only; the model leaves the field
unchanged where the C code would rotate the turret sprite. -/
structure Tower where
  pos : Cell
  active : Bool
  type : TowerType
  level : Nat
  fireCooldown : ℚ
  targetIndex : Int
  rotation : ℚ
  muzzleFlashTimer : ℚ

inductive GState
  | waveTransition
  | playing
  | gameOver
  | victory
deriving DecidableEq

/-- The global mutable state of main.c, threaded explicitly.
`selectedBuildType` models the `-1`-or-type global as an `Option`. -/
structure GameState where
  walls : Grid
  path : List Cell
  towers : Cell → Tower
  playerHealth : Int
  playerMoney : Int
  currentWaveNumber : Int
  gameSpeed : ℚ
  isPaused : Bool
  gameState : GState
  selectedTowerX : Int
  selectedTowerY : Int
  selectedBuildType : Option TowerType
  activeWave : EnemyWave

/-- One frame's worth of input polling results. -/
structure Input where
  keyP : Bool
  keyF : Bool
  keyR : Bool
  mouseLeft : Bool
  mouseRight : Bool
  mousePos : ℚ × ℚ

/-! ## Wave generation (CreateWave) -/

/-- The local `healthMultiplier` of `CreateWave`: `1.0f + (waveNumber-1)*0.20f`,
overwritten to `1.0f` in the final-wave branch. -/
def waveHealthMultiplier (waveNumber : Int) : ℚ :=
  if waveNumber = MAX_WAVES then 1 else 1 + ((waveNumber : ℚ) - 1) * (1/5)

/-- The `enemyTypeCounts` array filled by the hand-crafted / procedural
branches of `CreateWave`. -/
def enemyTypeCounts (w : Int) : EnemyTypeEnum → Int :=
  if w = 1 then fun t => match t with | .normal => 10 | _ => 0
  else if w = 2 then fun t => match t with | .normal => 15 | _ => 0
  else if w = 3 then fun t => match t with | .normal => 10 | .scout => 5 | _ => 0
  else if w = 4 then fun t => match t with | .normal => 15 | .scout => 8 | _ => 0
  else if w = 5 then fun t => match t with | .scout => 20 | _ => 0
  else if w = 6 then fun t => match t with | .normal => 10 | .tank => 3 | _ => 0
  else if w = 7 then fun t =>
    match t with | .normal => 15 | .scout => 10 | .tank => 5 | _ => 0
  else if w = 8 then fun t => match t with | .tank => 10 | _ => 0
  else if w = MAX_WAVES then fun t => match t with | .boss => 1 | _ => 0
  else fun t =>
    match t with
    | .normal => 10 + w
    | .scout => if w > 5 then 5 + (w - 5) * 2 else 0
    | .tank => if w > 8 then 2 + (w - 8) else 0
    | .boss => 0

/-- The `for (type...) for (i < counts[type])` fill order of `CreateWave`. -/
def typeOrder : List EnemyTypeEnum := [.normal, .scout, .tank, .boss]

/-- `CreateWave`.  Fields the C code leaves untouched in each slot (`pos`,
`pathIndex`, `moveTimer`, `health`, `progress` are stale until the spawn
sequencer initialises them) are zeroed in the model. -/
def createWave (waveNumber : Int) : EnemyWave :=
  let counts := enemyTypeCounts waveNumber
  let hm := waveHealthMultiplier waveNumber
  let total := counts .normal + counts .scout + counts .tank + counts .boss
  let enemyCount := if total > MAX_ENEMIES_PER_WAVE then MAX_ENEMIES_PER_WAVE else total
  let slots := typeOrder.flatMap fun t =>
    List.replicate (counts t).toNat
      { pos := (0, 0), type := t, pathIndex := 0, moveTimer := 0,
        active := false, health := 0,
        maxHealth := (enemyTypes t).maxHealth * hm,
        speedMultiplier := 1, slowTimer := 0, progress := 0 }
  { enemies := slots.take enemyCount.toNat
    enemyCount := enemyCount
    spawnTimer := 0
    enemiesSpawned := 0
    isFinished := false }

/-! ## Economy actions (HandleInput build branch, upgrade, sell) -/

def selectedCell (st : GameState) : Cell :=
  (st.selectedTowerX.toNat, st.selectedTowerY.toNat)

/-- The tower-placement branch of `HandleInput` for a build click on cell
`c` while `g_selectedBuildType = bt`. -/
def buildTower (bt : TowerType) (c : Cell) (st : GameState) : GameState :=
  if st.walls c = true ∧ (st.towers c).active = false then
    if st.playerMoney ≥ (g_towerStats bt 0).cost then
      { st with
        playerMoney := st.playerMoney - (g_towerStats bt 0).cost
        towers := fun x => if x = c then
            { pos := c, active := true, type := bt, level := 0,
              fireCooldown := 0, targetIndex := -1, rotation := 0,
              muzzleFlashTimer := 0 }
          else st.towers x
        selectedBuildType := none }
    else st
  else st

/-- `UpgradeSelectedTower`. -/
def upgradeSelectedTower (st : GameState) : GameState :=
  if st.selectedTowerX = -1 then st
  else
    let tower := st.towers (selectedCell st)
    if tower.level < MAX_TOWER_LEVEL - 1 then
      if st.playerMoney ≥ (g_towerStats tower.type (tower.level + 1)).cost then
        { st with
          playerMoney := st.playerMoney -
            (g_towerStats tower.type (tower.level + 1)).cost
          towers := fun x => if x = selectedCell st then
              { tower with level := tower.level + 1 }
            else st.towers x }
      else st
    else st

/-- The sum `for (i = 0; i <= tower->level; i++) sellValue += cost`,
unrolled over the four possible levels. -/
def cumulativeCost (t : TowerType) (lvl : Nat) : Int :=
  match lvl with
  | 0 => (g_towerStats t 0).cost
  | 1 => (g_towerStats t 0).cost + (g_towerStats t 1).cost
  | 2 => (g_towerStats t 0).cost + (g_towerStats t 1).cost + (g_towerStats t 2).cost
  | _ => (g_towerStats t 0).cost + (g_towerStats t 1).cost +
      (g_towerStats t 2).cost + (g_towerStats t 3).cost

/-- The binary32 value of the literal `0.7f`
(the nearest float to 0.7, namely 11744051·2⁻²⁴). -/
def float0_7 : ℚ := 11744051 / 2 ^ 24

/-- Round-to-nearest binary32 for positive arguments: the significand is
`x` scaled into `[2²³, 2²⁴)` and rounded to an integer.  Exact ties round
up here; ties never arise at the twelve products this model is applied to,
so the tie-breaking direction is irrelevant to the development. -/
def fl32pos (x : ℚ) : ℚ :=
  if x ≤ 0 then 0
  else ((⌊x * 2 ^ ((23 : ℤ) - Int.log 2 x) + 1/2⌋ : ℤ) : ℚ) *
    2 ^ (Int.log 2 x - (23 : ℤ))

/-- `sellValue *= 0.7f` on the accumulated int: the int is converted to
float exactly, multiplied by `0.7f` in binary32, and truncated back to int
(truncation equals floor on these positive values). -/
def sellRefund (t : TowerType) (lvl : Nat) : Int :=
  ⌊fl32pos ((cumulativeCost t lvl : ℚ) * float0_7)⌋

/-- `SellSelectedTower`. -/
def sellSelectedTower (st : GameState) : GameState :=
  if st.selectedTowerX = -1 then st
  else
    let tower := st.towers (selectedCell st)
    { st with
      playerMoney := st.playerMoney + sellRefund tower.type tower.level
      towers := fun x => if x = selectedCell st then
          { tower with active := false }
        else st.towers x
      selectedTowerX := -1
      selectedTowerY := -1 }

/-! ## Input handling (HandleInput) -/

/-- `HandleInput`: pause toggle, speed toggle, right-click deselection, then
left-click build / select.  `(int)(mousePos.x / cellWidth)` truncates toward
zero; the guard `mousePos.x > 0` makes this the floor. -/
def handleInput (inp : Input) (st : GameState) : GameState :=
  let st := if inp.keyP then { st with isPaused := !st.isPaused } else st
  let st := if inp.keyF then
      { st with gameSpeed := if st.gameSpeed = 1 then 2 else 1 }
    else st
  let st := if inp.mouseRight then
      { st with
        selectedBuildType := none
        selectedTowerX := -1
        selectedTowerY := -1 }
    else st
  let gridX : Int := ⌊inp.mousePos.1 / (cellWidth : ℚ)⌋
  let gridY : Int := ⌊inp.mousePos.2 / (cellHeight : ℚ)⌋
  if (inp.mousePos.1 < (GAME_AREA_WIDTH : ℚ) ∧ inp.mousePos.1 > 0) ∧
      inp.mouseLeft = true then
    match st.selectedBuildType with
    | some bt => buildTower bt (gridX.toNat, gridY.toNat) st
    | none =>
      if (st.towers (gridX.toNat, gridY.toNat)).active = true then
        { st with selectedTowerX := gridX, selectedTowerY := gridY }
      else
        { st with selectedTowerX := -1, selectedTowerY := -1 }
  else st

/-! ## Spawn sequencer (UpdateWave) -/

/-- The world-coordinate centre of a grid cell,
`(c.x * cellWidth + cellWidth/2, c.y * cellHeight + cellHeight/2)`. -/
def cellCenter (c : Cell) : ℚ × ℚ :=
  ((c.1 : ℚ) * (cellWidth : ℚ) + (cellWidth : ℚ) / 2,
   (c.2 : ℚ) * (cellHeight : ℚ) + (cellHeight : ℚ) / 2)

/-- Activation of the next unspawned slot (`enemy->active = true; ...`). -/
def spawnEnemy (path : List Cell) (en : Enemy) : Enemy :=
  { en with
    active := true
    pos := cellCenter (path.getD 0 (0, 0))
    pathIndex := 0
    moveTimer := 0
    health := en.maxHealth }

/-- `UpdateWave`: the spawn timer is reset to zero on trigger (no carry). -/
def updateWave (path : List Cell) (dt : ℚ) (w : EnemyWave) : EnemyWave :=
  if (w.enemiesSpawned : Int) ≥ w.enemyCount then { w with isFinished := true }
  else
    if w.spawnTimer + dt ≥ SPAWN_INTERVAL then
      { w with
        spawnTimer := 0
        enemies := w.enemies.set w.enemiesSpawned
          (spawnEnemy path (w.enemies.getD w.enemiesSpawned default))
        enemiesSpawned := w.enemiesSpawned + 1 }
    else { w with spawnTimer := w.spawnTimer + dt }

/-! ## Enemy motion (UpdateEnemies) -/

/-- raylib `Vector2Lerp`: `v1 + amount * (v2 - v1)` componentwise. -/
def lerpQ (a b : ℚ × ℚ) (amount : ℚ) : ℚ × ℚ :=
  (a.1 + amount * (b.1 - a.1), a.2 + amount * (b.2 - a.2))

/-- The slow-effect bookkeeping at the top of the per-enemy loop body. -/
def slowStep (dt : ℚ) (en : Enemy) : Enemy :=
  if en.slowTimer > 0 then { en with slowTimer := en.slowTimer - dt }
  else { en with speedMultiplier := 1 }

/-- The remainder of the per-enemy loop body: the leak branch deactivates
(the player-health decrement is applied by `updateEnemiesGame`), otherwise
the motion timer accumulates `dt`, the interpolation fraction is clamped at
1, and crossing a segment boundary carries the timer remainder.  Note that
on a crossing tick the stored `progress` is `pathIndex + lerpAmount` with
`pathIndex` already incremented and `lerpAmount = 1`. -/
def motionStep (path : List Cell) (dt : ℚ) (en : Enemy) : Enemy :=
  if en.pathIndex ≥ path.length - 1 then { en with active := false }
  else
    let moveInterval := 1 / ((enemyTypes en.type).speed * en.speedMultiplier)
    let startScreenPos := cellCenter (path.getD en.pathIndex (0, 0))
    let targetScreenPos := cellCenter (path.getD (en.pathIndex + 1) (0, 0))
    let lerpAmount :=
      if moveInterval > 0 then (en.moveTimer + dt) / moveInterval else 1
    if lerpAmount ≥ 1 then
      { en with
        pathIndex := en.pathIndex + 1
        moveTimer := en.moveTimer + dt - moveInterval
        pos := lerpQ startScreenPos targetScreenPos 1
        progress := ((en.pathIndex : ℚ) + 1) + 1 }
    else
      { en with
        moveTimer := en.moveTimer + dt
        pos := lerpQ startScreenPos targetScreenPos lerpAmount
        progress := (en.pathIndex : ℚ) + lerpAmount }

/-- The whole per-enemy loop body of `UpdateEnemies` (without the player
health side effect of the leak branch). -/
def enemyStep (path : List Cell) (dt : ℚ) (en : Enemy) : Enemy :=
  if en.active = false then en
  else motionStep path dt (slowStep dt en)

/-- `UpdateEnemies` at game level, folding the loop body over the slots and
applying the leak damage (`playerHealth--`, clamp at zero, game over). -/
def updateEnemiesGame (dt : ℚ) (st : GameState) : GameState :=
  let step := fun (acc : List Enemy × Int × GState) (en : Enemy) =>
    if en.active = false then (acc.1 ++ [en], acc.2.1, acc.2.2)
    else
      let en1 := slowStep dt en
      if en1.pathIndex ≥ st.path.length - 1 then
        let h := acc.2.1 - 1
        (acc.1 ++ [{ en1 with active := false }],
          if h ≤ 0 then 0 else h,
          if h ≤ 0 then GState.gameOver else acc.2.2)
      else (acc.1 ++ [motionStep st.path dt en1], acc.2.1, acc.2.2)
  let res := st.activeWave.enemies.foldl step ([], st.playerHealth, st.gameState)
  { st with
    activeWave := { st.activeWave with enemies := res.1 }
    playerHealth := res.2.1
    gameState := res.2.2 }

/-! ## Targeting and combat (UpdateTowers) -/

/-- raylib `Vector2DistanceSqr`. -/
def vector2DistanceSqr (a b : ℚ × ℚ) : ℚ := (a.1 - b.1) ^ 2 + (a.2 - b.2) ^ 2

/-- The slice of the global state read and written by `UpdateTowers`. -/
structure CombatState where
  towers : Cell → Tower
  enemies : List Enemy
  money : Int

/-- Target acquisition: the in-range active enemy with the largest
`progress` (`maxProgress = -1.0f; bestTargetIndex = -1;` scan). -/
def acquireTarget (enemies : List Enemy) (towerScreenPos : ℚ × ℚ) (range : ℚ) : Int :=
  ((List.range enemies.length).foldl
    (fun (acc : ℚ × Int) i =>
      let enemy := enemies.getD i default
      if enemy.active = true ∧
          vector2DistanceSqr towerScreenPos enemy.pos ≤ range ^ 2 ∧
          enemy.progress > acc.1 then
        (enemy.progress, (i : Int))
      else acc)
    (-1, -1)).2

/-- One iteration of the death sweep
(`if (enemy->active && enemy->health <= 0) ...`). -/
def sweepStep (acc : List Enemy × Int × Int) (i : Nat) : List Enemy × Int × Int :=
  let enemy := acc.1.getD i default
  if enemy.active = true ∧ enemy.health ≤ 0 then
    (acc.1.set i { enemy with active := false },
      acc.2.1 + (enemyTypes enemy.type).money,
      if acc.2.2 = (i : Int) then -1 else acc.2.2)
  else acc

/-- The death sweep after firing: deactivate dead enemies, pay their kill
rewards, and clear the tower's target if it died. -/
def deathSweep (enemies : List Enemy) (money targetIndex : Int) :
    List Enemy × Int × Int :=
  (List.range enemies.length).foldl sweepStep (enemies, money, targetIndex)

/-- The body of the `UpdateTowers` double loop for the tower on cell `c`. -/
def towerStep (dt : ℚ) (c : Cell) (cs : CombatState) : CombatState :=
  let tower := cs.towers c
  if tower.active = false then cs
  else
    let stats := g_towerStats tower.type tower.level
    let tower := if tower.fireCooldown > 0 then
        { tower with fireCooldown := tower.fireCooldown - dt } else tower
    let tower := if tower.muzzleFlashTimer > 0 then
        { tower with muzzleFlashTimer := tower.muzzleFlashTimer - dt } else tower
    let towerScreenPos := cellCenter c
    if tower.type = TowerType.slow then
      -- slow pulse: area effect, no targeting
      if tower.fireCooldown ≤ 0 then
        { cs with
          enemies := cs.enemies.map fun enemy =>
            if enemy.active = true ∧
                vector2DistanceSqr enemy.pos towerScreenPos ≤ stats.range ^ 2 then
              { enemy with
                speedMultiplier := stats.damage
                slowTimer := 1 / stats.fireRate + 1/10 }
            else enemy
          towers := fun x => if x = c then
              { tower with fireCooldown := 1 / stats.fireRate }
            else cs.towers x }
      else { cs with towers := fun x => if x = c then tower else cs.towers x }
    else
      -- validate the held target
      let tower :=
        if tower.targetIndex ≠ -1 then
          if (cs.enemies.getD tower.targetIndex.toNat default).active = false ∨
              vector2DistanceSqr towerScreenPos
                (cs.enemies.getD tower.targetIndex.toNat default).pos >
                stats.range ^ 2 then
            { tower with targetIndex := -1 }
          else tower
        else tower
      -- acquire a new target (furthest along the path)
      let tower :=
        if tower.targetIndex = -1 then
          { tower with targetIndex := acquireTarget cs.enemies towerScreenPos stats.range }
        else tower
      if tower.targetIndex ≠ -1 then
        -- (the atan2f rotation update is visual-only, see `Tower.rotation`)
        if tower.fireCooldown ≤ 0 then
          let target := cs.enemies.getD tower.targetIndex.toNat default
          let damaged :=
            if tower.type = TowerType.gun then
              cs.enemies.set tower.targetIndex.toNat
                { target with health := target.health - stats.damage }
            else -- splash: damage every active enemy in the blast radius
              cs.enemies.map fun sp =>
                if sp.active = true ∧
                    vector2DistanceSqr target.pos sp.pos < stats.splashRadius ^ 2 then
                  { sp with health := sp.health - stats.damage }
                else sp
          let tower := if tower.type = TowerType.gun then
              { tower with
                fireCooldown := 1 / stats.fireRate
                muzzleFlashTimer := 1/10 }
            else { tower with fireCooldown := 1 / stats.fireRate }
          let swept := deathSweep damaged cs.money tower.targetIndex
          { towers := fun x => if x = c then
                { tower with targetIndex := swept.2.2 }
              else cs.towers x
            enemies := swept.1
            money := swept.2.1 }
        else { cs with towers := fun x => if x = c then tower else cs.towers x }
      else { cs with towers := fun x => if x = c then tower else cs.towers x }

/-- The `for (x...) for (y...)` iteration order of `UpdateTowers`. -/
def allCells : List Cell :=
  (List.range GRID_SIZE).flatMap fun x => (List.range GRID_SIZE).map fun y => (x, y)

/-- `UpdateTowers` for the whole grid. -/
def updateTowersGame (dt : ℚ) (st : GameState) : GameState :=
  let cs := allCells.foldl (fun acc c => towerStep dt c acc)
    { towers := st.towers, enemies := st.activeWave.enemies, money := st.playerMoney }
  { st with
    towers := cs.towers
    activeWave := { st.activeWave with enemies := cs.enemies }
    playerMoney := cs.money }

/-! ## Wave completion and the frame update (UpdateGame) -/

/-- `CheckWaveCompletion`. -/
def checkWaveCompletion (st : GameState) : GameState :=
  if st.activeWave.isFinished = false then st
  else if st.activeWave.enemies.any (fun en => en.active) then st
  else if st.currentWaveNumber ≥ MAX_WAVES then { st with gameState := .victory }
  else { st with gameState := .waveTransition }

/-- `RestartGame` / `InitializeGame`: run state is reset, the grid and path
are reused, every tower slot is deactivated. -/
def restartGame (st : GameState) : GameState :=
  { st with
    playerHealth := PLAYER_START_HEALTH
    playerMoney := PLAYER_START_MONEY
    currentWaveNumber := 0
    gameState := .waveTransition
    selectedTowerX := -1
    selectedTowerY := -1
    selectedBuildType := none
    gameSpeed := 1
    isPaused := false
    towers := fun c => { st.towers c with active := false } }

/-- `UpdateGame`: input is handled first (so pausing works everywhere), the
pause flag short-circuits all simulation, the speed multiplier scales `dt`,
and the `PLAYING` state runs spawn → motion → combat → completion check.
Wave starting happens in the UI code (`DrawGameUI`), not here. -/
def updateGame (inp : Input) (dt : ℚ) (st : GameState) : GameState :=
  let st := handleInput inp st
  if st.isPaused then st
  else
    let dt := dt * st.gameSpeed
    match st.gameState with
    | .playing =>
      checkWaveCompletion (updateTowersGame dt (updateEnemiesGame dt
        { st with activeWave := updateWave st.path dt st.activeWave }))
    | .waveTransition => st
    | .gameOver => if inp.keyR then restartGame st else st
    | .victory => if inp.keyR then restartGame st else st

/-! ## Evaluation of the binary32 sell computation -/

theorem int_log2_eq {x : ℚ} {e : ℤ} (hx : 0 < x)
    (h1 : (2:ℚ) ^ e ≤ x) (h2 : x < (2:ℚ) ^ (e + 1)) : Int.log 2 x = e := by
  have hb : 1 < 2 := one_lt_two
  have hc : ((2:ℕ) : ℚ) = (2:ℚ) := by norm_num
  have hle : e ≤ Int.log 2 x := (Int.zpow_le_iff_le_log hb hx).mp (by rw [hc]; exact h1)
  have hlt : Int.log 2 x < e + 1 := (Int.lt_zpow_iff_log_lt hb hx).mp (by rw [hc]; exact h2)
  omega

theorem fl32pos_eval {x : ℚ} {e m : ℤ} (hx : 0 < x)
    (h1 : (2:ℚ) ^ e ≤ x) (h2 : x < (2:ℚ) ^ (e + 1))
    (hm : ⌊x * 2 ^ ((23 : ℤ) - e) + 1/2⌋ = m) :
    fl32pos x = (m : ℚ) * 2 ^ (e - (23:ℤ)) := by
  unfold fl32pos
  rw [if_neg (not_le.mpr hx), int_log2_eq hx h1 h2, hm]

/-- For each of the twelve reachable (type, level) pairs the binary32
computation `(int)(sellValue * 0.7f)` produces exactly
`⌊0.7 · cumulative spend⌋`. -/
theorem sellRefund_eq_floor (t : TowerType) (l : Nat) (hl : l < MAX_TOWER_LEVEL) :
    sellRefund t l = ⌊(7 : ℚ) * (cumulativeCost t l : ℚ) / 10⌋ := by
  have key : ∀ (s e m v : ℤ), cumulativeCost t l = s →
      (0:ℚ) < (s:ℚ) * float0_7 →
      (2:ℚ) ^ e ≤ (s:ℚ) * float0_7 → (s:ℚ) * float0_7 < 2 ^ (e+1) →
      ⌊(s:ℚ) * float0_7 * 2 ^ ((23:ℤ) - e) + 1/2⌋ = m →
      ⌊(m : ℚ) * 2 ^ (e - (23:ℤ))⌋ = v →
      ⌊(7:ℚ) * (s:ℚ) / 10⌋ = v →
      sellRefund t l = ⌊(7 : ℚ) * (cumulativeCost t l : ℚ) / 10⌋ := by
    intro s e m v hs hx h1 h2 hm hv hfl
    unfold sellRefund
    rw [hs, fl32pos_eval hx h1 h2 hm, hv, hfl]
  unfold MAX_TOWER_LEVEL at hl
  cases t <;> interval_cases l
  · exact key 50 5 9175040 35 (by norm_num [cumulativeCost, g_towerStats])
      (by norm_num [float0_7]) (by norm_num [float0_7]) (by norm_num [float0_7])
      (by norm_num [float0_7]) (by norm_num) (by norm_num)
  · exact key 125 6 11468800 87 (by norm_num [cumulativeCost, g_towerStats])
      (by norm_num [float0_7]) (by norm_num [float0_7]) (by norm_num [float0_7])
      (by norm_num [float0_7]) (by norm_num) (by norm_num)
  · exact key 225 7 10321920 157 (by norm_num [cumulativeCost, g_towerStats])
      (by norm_num [float0_7]) (by norm_num [float0_7]) (by norm_num [float0_7])
      (by norm_num [float0_7]) (by norm_num) (by norm_num)
  · exact key 375 8 8601600 262 (by norm_num [cumulativeCost, g_towerStats])
      (by norm_num [float0_7]) (by norm_num [float0_7]) (by norm_num [float0_7])
      (by norm_num [float0_7]) (by norm_num) (by norm_num)
  · exact key 60 5 11010048 42 (by norm_num [cumulativeCost, g_towerStats])
      (by norm_num [float0_7]) (by norm_num [float0_7]) (by norm_num [float0_7])
      (by norm_num [float0_7]) (by norm_num) (by norm_num)
  · exact key 140 6 12845056 98 (by norm_num [cumulativeCost, g_towerStats])
      (by norm_num [float0_7]) (by norm_num [float0_7]) (by norm_num [float0_7])
      (by norm_num [float0_7]) (by norm_num) (by norm_num)
  · exact key 240 7 11010048 168 (by norm_num [cumulativeCost, g_towerStats])
      (by norm_num [float0_7]) (by norm_num [float0_7]) (by norm_num [float0_7])
      (by norm_num [float0_7]) (by norm_num) (by norm_num)
  · exact key 380 8 8716288 266 (by norm_num [cumulativeCost, g_towerStats])
      (by norm_num [float0_7]) (by norm_num [float0_7]) (by norm_num [float0_7])
      (by norm_num [float0_7]) (by norm_num) (by norm_num)
  · exact key 100 6 9175040 70 (by norm_num [cumulativeCost, g_towerStats])
      (by norm_num [float0_7]) (by norm_num [float0_7]) (by norm_num [float0_7])
      (by norm_num [float0_7]) (by norm_num) (by norm_num)
  · exact key 220 7 10092544 154 (by norm_num [cumulativeCost, g_towerStats])
      (by norm_num [float0_7]) (by norm_num [float0_7]) (by norm_num [float0_7])
      (by norm_num [float0_7]) (by norm_num) (by norm_num)
  · exact key 380 8 8716288 266 (by norm_num [cumulativeCost, g_towerStats])
      (by norm_num [float0_7]) (by norm_num [float0_7]) (by norm_num [float0_7])
      (by norm_num [float0_7]) (by norm_num) (by norm_num)
  · exact key 600 8 13762560 420 (by norm_num [cumulativeCost, g_towerStats])
      (by norm_num [float0_7]) (by norm_num [float0_7]) (by norm_num [float0_7])
      (by norm_num [float0_7]) (by norm_num) (by norm_num)

/-! ## Concrete sample states used by witnesses -/

def towerInactive : Tower :=
  { pos := (0, 0), active := false, type := .gun, level := 0,
    fireCooldown := 0, targetIndex := -1, rotation := 0, muzzleFlashTimer := 0 }

def towerGun0 : Tower := { towerInactive with active := true }

def emptyWave : EnemyWave :=
  { enemies := [], enemyCount := 0, spawnTimer := 0, enemiesSpawned := 0,
    isFinished := false }

/-- A state with one active level-0 gun tower on the selected cell (0,0),
walls everywhere, and 100 currency. -/
def sampleState : GameState :=
  { walls := fun _ => true
    path := [(0, 0), (1, 0), (2, 0)]
    towers := fun c => if c = ((0, 0) : Cell) then towerGun0 else towerInactive
    playerHealth := 20
    playerMoney := 100
    currentWaveNumber := 1
    gameSpeed := 1
    isPaused := false
    gameState := .playing
    selectedTowerX := 0
    selectedTowerY := 0
    selectedBuildType := none
    activeWave := emptyWave }

/-! ## Claims C2, C4, C5, C7 -/

/-- C2: selling the selected tower (of any type, any reachable level)
increases currency by exactly `⌊0.7 × (sum of the costs paid for level 0
through the current level)⌋` and deactivates the tower.  For a freshly
built level-0 tower the cumulative spend is the base cost, so the refund is
`⌊0.7 × base cost⌋`. -/
theorem claim_C2 (st : GameState) (hsel : st.selectedTowerX ≠ -1)
    (hlvl : (st.towers (selectedCell st)).level < MAX_TOWER_LEVEL) :
    (sellSelectedTower st).playerMoney = st.playerMoney +
      ⌊(7 : ℚ) * (cumulativeCost (st.towers (selectedCell st)).type
        (st.towers (selectedCell st)).level : ℚ) / 10⌋ ∧
    ((sellSelectedTower st).towers (selectedCell st)).active = false := by
  unfold sellSelectedTower
  rw [if_neg hsel]
  refine ⟨?_, ?_⟩
  · show st.playerMoney + sellRefund _ _ = _
    rw [sellRefund_eq_floor _ _ hlvl]
  · simp

theorem claim_C2_witness :
    (sampleState.selectedTowerX ≠ -1 ∧
      (sampleState.towers (selectedCell sampleState)).level < MAX_TOWER_LEVEL) ∧
    ((sellSelectedTower sampleState).playerMoney = sampleState.playerMoney +
      ⌊(7 : ℚ) * (cumulativeCost (sampleState.towers (selectedCell sampleState)).type
        (sampleState.towers (selectedCell sampleState)).level : ℚ) / 10⌋ ∧
     ((sellSelectedTower sampleState).towers (selectedCell sampleState)).active = false) :=
  ⟨⟨by decide, by decide⟩, claim_C2 sampleState (by decide) (by decide)⟩

/-- C4: the final wave (`MAX_WAVES` = 30) is composed of exactly one enemy,
of boss type, with the health multiplier reset to 1, so the boss instance's
max health equals the boss type's base max health. -/
theorem claim_C4 :
    waveHealthMultiplier MAX_WAVES = 1 ∧
    (createWave MAX_WAVES).enemyCount = 1 ∧
    (createWave MAX_WAVES).enemies.length = 1 ∧
    ∀ en ∈ (createWave MAX_WAVES).enemies,
      en.type = EnemyTypeEnum.boss ∧
      en.maxHealth = (enemyTypes EnemyTypeEnum.boss).maxHealth := by
  refine ⟨?_, ?_, ?_, ?_⟩ <;>
    simp [createWave, enemyTypeCounts, waveHealthMultiplier, typeOrder,
      MAX_WAVES, MAX_ENEMIES_PER_WAVE, enemyTypes, List.flatMap]

/-- C5: building on a free wall cell deducts exactly the base cost and
installs a level-0 tower with zero cooldown and no target, and fails with
no state change when currency is insufficient; upgrading a selected tower
below max level deducts exactly the next level's cost and increments the
level, and fails with no state change when currency is insufficient. -/
theorem claim_C5 (st : GameState) (bt : TowerType) (c : Cell)
    (hwall : st.walls c = true) (hfree : (st.towers c).active = false)
    (hsel : st.selectedTowerX ≠ -1)
    (hlvl : (st.towers (selectedCell st)).level < MAX_TOWER_LEVEL - 1) :
    ((st.playerMoney ≥ (g_towerStats bt 0).cost →
        (buildTower bt c st).playerMoney = st.playerMoney - (g_towerStats bt 0).cost ∧
        ((buildTower bt c st).towers c).active = true ∧
        ((buildTower bt c st).towers c).type = bt ∧
        ((buildTower bt c st).towers c).level = 0 ∧
        ((buildTower bt c st).towers c).fireCooldown = 0 ∧
        ((buildTower bt c st).towers c).targetIndex = -1) ∧
      (st.playerMoney < (g_towerStats bt 0).cost → buildTower bt c st = st)) ∧
    ((st.playerMoney ≥ (g_towerStats (st.towers (selectedCell st)).type
          ((st.towers (selectedCell st)).level + 1)).cost →
        (upgradeSelectedTower st).playerMoney = st.playerMoney -
          (g_towerStats (st.towers (selectedCell st)).type
            ((st.towers (selectedCell st)).level + 1)).cost ∧
        ((upgradeSelectedTower st).towers (selectedCell st)).level =
          (st.towers (selectedCell st)).level + 1) ∧
      (st.playerMoney < (g_towerStats (st.towers (selectedCell st)).type
          ((st.towers (selectedCell st)).level + 1)).cost →
        upgradeSelectedTower st = st)) := by
  constructor
  · constructor
    · intro hm
      unfold buildTower
      rw [if_pos ⟨hwall, hfree⟩, if_pos hm]
      refine ⟨rfl, ?_, ?_, ?_, ?_, ?_⟩ <;> simp
    · intro hm
      unfold buildTower
      rw [if_pos ⟨hwall, hfree⟩, if_neg (not_le.mpr hm)]
  · constructor
    · intro hm
      unfold upgradeSelectedTower
      rw [if_neg hsel, if_pos hlvl, if_pos hm]
      refine ⟨rfl, ?_⟩
      simp
    · intro hm
      unfold upgradeSelectedTower
      rw [if_neg hsel, if_pos hlvl, if_neg (not_le.mpr hm)]

theorem claim_C5_witness :
    (sampleState.walls (1, 0) = true ∧
      (sampleState.towers (1, 0)).active = false ∧
      sampleState.selectedTowerX ≠ -1 ∧
      (sampleState.towers (selectedCell sampleState)).level < MAX_TOWER_LEVEL - 1) ∧
    (((sampleState.playerMoney ≥ (g_towerStats TowerType.splash 0).cost →
        (buildTower TowerType.splash (1, 0) sampleState).playerMoney =
          sampleState.playerMoney - (g_towerStats TowerType.splash 0).cost ∧
        ((buildTower TowerType.splash (1, 0) sampleState).towers (1, 0)).active = true ∧
        ((buildTower TowerType.splash (1, 0) sampleState).towers (1, 0)).type =
          TowerType.splash ∧
        ((buildTower TowerType.splash (1, 0) sampleState).towers (1, 0)).level = 0 ∧
        ((buildTower TowerType.splash (1, 0) sampleState).towers (1, 0)).fireCooldown = 0 ∧
        ((buildTower TowerType.splash (1, 0) sampleState).towers (1, 0)).targetIndex = -1) ∧
      (sampleState.playerMoney < (g_towerStats TowerType.splash 0).cost →
        buildTower TowerType.splash (1, 0) sampleState = sampleState)) ∧
     ((sampleState.playerMoney ≥
          (g_towerStats (sampleState.towers (selectedCell sampleState)).type
            ((sampleState.towers (selectedCell sampleState)).level + 1)).cost →
        (upgradeSelectedTower sampleState).playerMoney = sampleState.playerMoney -
          (g_towerStats (sampleState.towers (selectedCell sampleState)).type
            ((sampleState.towers (selectedCell sampleState)).level + 1)).cost ∧
        ((upgradeSelectedTower sampleState).towers (selectedCell sampleState)).level =
          (sampleState.towers (selectedCell sampleState)).level + 1) ∧
      (sampleState.playerMoney <
          (g_towerStats (sampleState.towers (selectedCell sampleState)).type
            ((sampleState.towers (selectedCell sampleState)).level + 1)).cost →
        upgradeSelectedTower sampleState = sampleState))) :=
  ⟨⟨by decide, by decide, by decide, by decide⟩,
    claim_C5 sampleState TowerType.splash (1, 0) (by decide) (by decide)
      (by decide) (by decide)⟩

/-- C7: wave composition is a pure function of the wave number (calling the
generator twice yields identical composition and health multiplier), and
the composed count never exceeds `MAX_ENEMIES_PER_WAVE` (both as the stored
`enemyCount` and as the number of composed slots). -/
theorem claim_C7 (waveNumber : Int) :
    createWave waveNumber = createWave waveNumber ∧
    waveHealthMultiplier waveNumber = waveHealthMultiplier waveNumber ∧
    (createWave waveNumber).enemyCount ≤ MAX_ENEMIES_PER_WAVE ∧
    ((createWave waveNumber).enemies.length : Int) ≤ MAX_ENEMIES_PER_WAVE := by
  have h3 : ∀ (l : List Enemy) (n : Int), n ≤ MAX_ENEMIES_PER_WAVE →
      ((l.take n.toNat).length : Int) ≤ MAX_ENEMIES_PER_WAVE := by
    intro l n hn
    have h4 : (l.take n.toNat).length ≤ n.toNat := by
      rw [List.length_take]
      exact Nat.min_le_left _ _
    unfold MAX_ENEMIES_PER_WAVE at *
    omega
  refine ⟨rfl, rfl, ?_, ?_⟩
  · simp only [createWave]
    unfold MAX_ENEMIES_PER_WAVE
    split <;> omega
  · simp only [createWave]
    apply h3
    unfold MAX_ENEMIES_PER_WAVE
    split <;> omega

/-! ## Claim C10: the spawn sequencer -/

theorem getD_set_self (l : List Enemy) (i : Nat) (a : Enemy) (h : i < l.length) :
    (l.set i a).getD i default = a := by
  simp [List.getD_eq_getElem?_getD, List.getElem?_set, h]

theorem getD_set_ne (l : List Enemy) (i j : Nat) (a : Enemy) (h : j ≠ i) :
    (l.set i a).getD j default = l.getD j default := by
  simp [List.getD_eq_getElem?_getD, List.getElem?_set, (Ne.symm h)]

/-- A one-slot wave ready to spawn. -/
def sampleWave : EnemyWave :=
  { enemies := [default], enemyCount := 1, spawnTimer := 0, enemiesSpawned := 0,
    isFinished := false }

/-- C10: one spawn-sequencer tick activates at most one enemy no matter how
large `dt` is; when a spawn fires, the activated slot starts at the center
of the path's first cell with path index 0, motion timer 0, and health equal
to its instance max health, and no other slot changes. -/
theorem claim_C10 (path : List Cell) (dt : ℚ) (w : EnemyWave)
    (hwf : (w.enemies.length : Int) = w.enemyCount) :
    (updateWave path dt w).enemiesSpawned ≤ w.enemiesSpawned + 1 ∧
    ((updateWave path dt w).enemiesSpawned = w.enemiesSpawned + 1 →
      ((updateWave path dt w).enemies.getD w.enemiesSpawned default).active = true ∧
      ((updateWave path dt w).enemies.getD w.enemiesSpawned default).pos =
        cellCenter (path.getD 0 (0, 0)) ∧
      ((updateWave path dt w).enemies.getD w.enemiesSpawned default).pathIndex = 0 ∧
      ((updateWave path dt w).enemies.getD w.enemiesSpawned default).moveTimer = 0 ∧
      ((updateWave path dt w).enemies.getD w.enemiesSpawned default).health =
        (w.enemies.getD w.enemiesSpawned default).maxHealth) ∧
    (∀ i, i ≠ w.enemiesSpawned →
      (updateWave path dt w).enemies.getD i default = w.enemies.getD i default) := by
  unfold updateWave
  by_cases h1 : (w.enemiesSpawned : Int) ≥ w.enemyCount
  · rw [if_pos h1]
    refine ⟨by dsimp only; omega, fun h => absurd h (by dsimp only; omega), fun i _ => rfl⟩
  · rw [if_neg h1]
    have hk : w.enemiesSpawned < w.enemies.length := by omega
    by_cases h2 : w.spawnTimer + dt ≥ SPAWN_INTERVAL
    · rw [if_pos h2]
      refine ⟨by dsimp only; omega, fun _ => ?_, fun i hi => getD_set_ne _ _ _ _ hi⟩
      show ((w.enemies.set w.enemiesSpawned
        (spawnEnemy path (w.enemies.getD w.enemiesSpawned default))).getD
          w.enemiesSpawned default).active = true ∧ _
      rw [getD_set_self _ _ _ hk]
      exact ⟨rfl, rfl, rfl, rfl, rfl⟩
    · rw [if_neg h2]
      refine ⟨by dsimp only; omega, fun h => absurd h (by dsimp only; omega), fun i _ => rfl⟩

theorem claim_C10_witness :
    ((sampleWave.enemies.length : Int) = sampleWave.enemyCount) ∧
    ((updateWave [(0, 0), (1, 0)] 1 sampleWave).enemiesSpawned ≤
        sampleWave.enemiesSpawned + 1 ∧
      ((updateWave [(0, 0), (1, 0)] 1 sampleWave).enemiesSpawned =
          sampleWave.enemiesSpawned + 1 →
        ((updateWave [(0, 0), (1, 0)] 1 sampleWave).enemies.getD
            sampleWave.enemiesSpawned default).active = true ∧
        ((updateWave [(0, 0), (1, 0)] 1 sampleWave).enemies.getD
            sampleWave.enemiesSpawned default).pos =
          cellCenter (([(0, 0), (1, 0)] : List Cell).getD 0 (0, 0)) ∧
        ((updateWave [(0, 0), (1, 0)] 1 sampleWave).enemies.getD
            sampleWave.enemiesSpawned default).pathIndex = 0 ∧
        ((updateWave [(0, 0), (1, 0)] 1 sampleWave).enemies.getD
            sampleWave.enemiesSpawned default).moveTimer = 0 ∧
        ((updateWave [(0, 0), (1, 0)] 1 sampleWave).enemies.getD
            sampleWave.enemiesSpawned default).health =
          (sampleWave.enemies.getD sampleWave.enemiesSpawned default).maxHealth) ∧
      (∀ i, i ≠ sampleWave.enemiesSpawned →
        (updateWave [(0, 0), (1, 0)] 1 sampleWave).enemies.getD i default =
          sampleWave.enemies.getD i default)) :=
  ⟨by decide, claim_C10 [(0, 0), (1, 0)] 1 sampleWave (by decide)⟩

/-! ## Claim C3: enemy progress across a motion tick -/

theorem speed_pos (t : EnemyTypeEnum) : 0 < (enemyTypes t).speed := by
  cases t <;> norm_num [enemyTypes]

/-- The cumulative path progress an enemy state denotes: segment index plus
the interpolation fraction `moveTimer / moveInterval` clamped at 1 (the
quantity `UpdateEnemies` computes as `lerpAmount` before any crossing). -/
def progressOf (en : Enemy) : ℚ :=
  (en.pathIndex : ℚ) +
    min (en.moveTimer * ((enemyTypes en.type).speed * en.speedMultiplier)) 1

theorem slowStep_fields (dt : ℚ) (en : Enemy) :
    (slowStep dt en).pathIndex = en.pathIndex ∧
    (slowStep dt en).moveTimer = en.moveTimer ∧
    (slowStep dt en).type = en.type ∧
    (slowStep dt en).active = en.active := by
  unfold slowStep
  split <;> exact ⟨rfl, rfl, rfl, rfl⟩

theorem slowStep_mult (dt : ℚ) (en : Enemy) (h1 : 0 < en.speedMultiplier)
    (h2 : en.speedMultiplier ≤ 1) :
    en.speedMultiplier ≤ (slowStep dt en).speedMultiplier ∧
    0 < (slowStep dt en).speedMultiplier ∧
    (slowStep dt en).speedMultiplier ≤ 1 := by
  unfold slowStep
  split
  · exact ⟨le_refl _, h1, h2⟩
  · exact ⟨h2, one_pos, le_refl 1⟩

theorem motionStep_progressOf (path : List Cell) (dt : ℚ) (en : Enemy)
    (hdt : 0 ≤ dt) (hmt : 0 ≤ en.moveTimer)
    (hs : 0 < (enemyTypes en.type).speed * en.speedMultiplier)
    (hidx : en.pathIndex < path.length - 1) :
    progressOf en ≤ progressOf (motionStep path dt en) ∧
    ((motionStep path dt en).pathIndex = en.pathIndex →
      (motionStep path dt en).progress = progressOf (motionStep path dt en)) := by
  have hnotle : ¬ (en.pathIndex ≥ path.length - 1) := not_le.mpr hidx
  have hmi : (0:ℚ) < 1 / ((enemyTypes en.type).speed * en.speedMultiplier) :=
    one_div_pos.mpr hs
  unfold motionStep
  rw [if_neg hnotle]
  dsimp only
  rw [if_pos hmi]
  have hdiv : (en.moveTimer + dt) /
      (1 / ((enemyTypes en.type).speed * en.speedMultiplier)) =
      (en.moveTimer + dt) * ((enemyTypes en.type).speed * en.speedMultiplier) := by
    field_simp
  rw [hdiv]
  by_cases hcross :
      (en.moveTimer + dt) * ((enemyTypes en.type).speed * en.speedMultiplier) ≥ 1
  · rw [if_pos hcross]
    constructor
    · dsimp only [progressOf]
      push_cast
      have h1 : min (en.moveTimer *
          ((enemyTypes en.type).speed * en.speedMultiplier)) 1 ≤ 1 :=
        min_le_right _ _
      have h2 : (0:ℚ) ≤ min ((en.moveTimer + dt -
          1 / ((enemyTypes en.type).speed * en.speedMultiplier)) *
          ((enemyTypes en.type).speed * en.speedMultiplier)) 1 := by
        apply le_min _ zero_le_one
        apply mul_nonneg _ (le_of_lt hs)
        have hge : 1 / ((enemyTypes en.type).speed * en.speedMultiplier) ≤
            en.moveTimer + dt := (div_le_iff hs).mpr hcross
        linarith
      linarith
    · intro h
      dsimp only at h
      omega
  · rw [if_neg hcross]
    constructor
    · dsimp only [progressOf]
      apply add_le_add_left
      apply min_le_min _ (le_refl 1)
      apply mul_le_mul_of_nonneg_right (by linarith) (le_of_lt hs)
    · intro h
      dsimp only [progressOf]
      rw [min_eq_left (le_of_lt (not_le.mp hcross))]

/-- C3 (amended): across one `UpdateEnemies` tick with `dt ≥ 0` on an active
enemy that has not reached the final cell, the denoted cumulative progress
(segment index plus interpolation fraction, clamped at 1 — `progressOf`)
never decreases; on a non-crossing tick the stored `progress` field agrees
with the denoted progress; and the interpolation used for positions maps
fraction 0 to the current cell's world-coordinate centre and fraction 1 to
the next cell's.  The original claim over the stored `progress` field is
refuted by `claim_C3_counterexample`: on a crossing tick the code stores
`pathIndex + lerpAmount` with `pathIndex` already incremented and
`lerpAmount = 1`, overshooting by 1, so the stored field decreases on the
following tick. -/
theorem claim_C3 (path : List Cell) (dt : ℚ) (en : Enemy)
    (hdt : 0 ≤ dt) (hmt : 0 ≤ en.moveTimer)
    (hmult : 0 < en.speedMultiplier) (hmult1 : en.speedMultiplier ≤ 1)
    (hact : en.active = true)
    (hidx : en.pathIndex < path.length - 1) :
    progressOf en ≤ progressOf (enemyStep path dt en) ∧
    ((enemyStep path dt en).pathIndex = en.pathIndex →
      (enemyStep path dt en).progress = progressOf (enemyStep path dt en)) ∧
    (∀ c c' : Cell, lerpQ (cellCenter c) (cellCenter c') 0 = cellCenter c ∧
      lerpQ (cellCenter c) (cellCenter c') 1 = cellCenter c') := by
  have hact' : enemyStep path dt en = motionStep path dt (slowStep dt en) := by
    unfold enemyStep
    rw [hact]
    simp
  have hsf := slowStep_fields dt en
  have hsm := slowStep_mult dt en hmult hmult1
  have hs' : 0 < (enemyTypes (slowStep dt en).type).speed *
      (slowStep dt en).speedMultiplier := by
    rw [hsf.2.2.1]
    exact mul_pos (speed_pos _) hsm.2.1
  have hkey := motionStep_progressOf path dt (slowStep dt en) hdt
    (hsf.2.1 ▸ hmt) hs' (by rw [hsf.1]; exact hidx)
  have hstep1 : progressOf en ≤ progressOf (slowStep dt en) := by
    unfold progressOf
    rw [hsf.1, hsf.2.1, hsf.2.2.1]
    apply add_le_add_left
    apply min_le_min _ (le_refl 1)
    apply mul_le_mul_of_nonneg_left _ hmt
    exact mul_le_mul_of_nonneg_left hsm.1 (le_of_lt (speed_pos _))
  refine ⟨?_, ?_, ?_⟩
  · rw [hact']
    exact le_trans hstep1 hkey.1
  · rw [hact']
    intro h
    exact hkey.2 (h.trans hsf.1.symm)
  · intro c c'
    constructor
    · simp [lerpQ]
    · refine Prod.ext ?_ ?_ <;> simp [lerpQ] <;> ring

/-- An enemy state one tick after crossing into segment 1: the stored
`progress` field holds the overshot value 2. -/
def cexEnemy : Enemy := ⟨(0, 0), .normal, 1, 0, true, 100, 100, 1, 0, 2⟩

def cexPath : List Cell := [(0, 0), (1, 0), (2, 0)]

/-- The stored `progress` field is not monotone: on the tick after a
crossing it drops from the overshot value 2 back to 1.5. -/
theorem claim_C3_counterexample :
    cexEnemy.active = true ∧ (0:ℚ) ≤ 1/8 ∧
    (enemyStep cexPath (1/8) cexEnemy).progress < cexEnemy.progress := by
  refine ⟨rfl, by norm_num, ?_⟩
  norm_num [enemyStep, motionStep, slowStep, cexEnemy, cexPath, enemyTypes,
    progressOf]

/-- A freshly spawned enemy at the path head. -/
def c3Enemy : Enemy := ⟨(0, 0), .normal, 0, 0, true, 100, 100, 1, 0, 0⟩

theorem claim_C3_witness :
    ((0:ℚ) ≤ 1/8 ∧ (0:ℚ) ≤ c3Enemy.moveTimer ∧ 0 < c3Enemy.speedMultiplier ∧
      c3Enemy.speedMultiplier ≤ 1 ∧ c3Enemy.active = true ∧
      c3Enemy.pathIndex < cexPath.length - 1) ∧
    (progressOf c3Enemy ≤ progressOf (enemyStep cexPath (1/8) c3Enemy) ∧
      ((enemyStep cexPath (1/8) c3Enemy).pathIndex = c3Enemy.pathIndex →
        (enemyStep cexPath (1/8) c3Enemy).progress =
          progressOf (enemyStep cexPath (1/8) c3Enemy)) ∧
      (∀ c c' : Cell, lerpQ (cellCenter c) (cellCenter c') 0 = cellCenter c ∧
        lerpQ (cellCenter c) (cellCenter c') 1 = cellCenter c')) :=
  ⟨⟨by norm_num, by norm_num [c3Enemy], by norm_num [c3Enemy],
      by norm_num [c3Enemy], rfl, by norm_num [c3Enemy, cexPath]⟩,
    claim_C3 cexPath (1/8) c3Enemy (by norm_num) (by norm_num [c3Enemy])
      (by norm_num [c3Enemy]) (by norm_num [c3Enemy]) rfl
      (by norm_num [c3Enemy, cexPath])⟩

/-! ## Claim C8: behaviour of a tick while paused -/

theorem handleInput_isPaused (inp : Input) (st : GameState)
    (hkp : inp.keyP = false) :
    (handleInput inp st).isPaused = st.isPaused := by
  unfold handleInput buildTower
  dsimp only
  rw [hkp, if_neg (show ¬(false = true) by decide)]
  repeat' split
  all_goals rfl

theorem handleInput_keyP (inp : Input) (st : GameState)
    (hkp : inp.keyP = true) :
    (handleInput inp st).isPaused = !st.isPaused := by
  unfold handleInput buildTower
  dsimp only
  rw [hkp, if_pos (show true = true from rfl)]
  repeat' split
  all_goals rfl

theorem handleInput_sim_fields (inp : Input) (st : GameState) :
    (handleInput inp st).activeWave = st.activeWave ∧
    (handleInput inp st).playerHealth = st.playerHealth ∧
    (handleInput inp st).currentWaveNumber = st.currentWaveNumber ∧
    (handleInput inp st).gameState = st.gameState := by
  unfold handleInput buildTower
  dsimp only
  repeat' split
  all_goals exact ⟨rfl, rfl, rfl, rfl⟩

theorem handleInput_money_towers (inp : Input) (st : GameState)
    (hml : inp.mouseLeft = false) :
    (handleInput inp st).playerMoney = st.playerMoney ∧
    (handleInput inp st).towers = st.towers := by
  unfold handleInput
  dsimp only
  rw [if_neg (by simp [hml])]
  repeat' split
  all_goals exact ⟨rfl, rfl⟩

/-- C8 (amended): while the pause flag is set and the tick's input does not
toggle it, the tick is input handling only — enemies/spawns (the active
wave), player health, wave number, and game phase are unchanged, and
currency and towers are unchanged when no left click occurred — and the
unpause key is accepted (P toggles the flag).  The original claim also
promised that restart input is accepted while paused; that part is refuted
by `claim_C8_counterexample`: `UpdateGame` returns right after input
handling when paused, before the switch that reads `KEY_R`, so a restart
press is ignored while paused. -/
theorem claim_C8 (inp : Input) (dt : ℚ) (st : GameState)
    (hp : st.isPaused = true) (hkp : inp.keyP = false) :
    updateGame inp dt st = handleInput inp st ∧
    (updateGame inp dt st).activeWave = st.activeWave ∧
    (updateGame inp dt st).playerHealth = st.playerHealth ∧
    (updateGame inp dt st).currentWaveNumber = st.currentWaveNumber ∧
    (updateGame inp dt st).gameState = st.gameState ∧
    (inp.mouseLeft = false →
      (updateGame inp dt st).playerMoney = st.playerMoney ∧
      (updateGame inp dt st).towers = st.towers) ∧
    (∀ inp' : Input, inp'.keyP = true →
      (handleInput inp' st).isPaused = !st.isPaused) := by
  have hpause : (handleInput inp st).isPaused = true := by
    rw [handleInput_isPaused inp st hkp, hp]
  have hupd : updateGame inp dt st = handleInput inp st := by
    unfold updateGame
    dsimp only
    rw [hpause]
    simp
  have hsf := handleInput_sim_fields inp st
  refine ⟨hupd, ?_, ?_, ?_, ?_, ?_, ?_⟩
  · rw [hupd]; exact hsf.1
  · rw [hupd]; exact hsf.2.1
  · rw [hupd]; exact hsf.2.2.1
  · rw [hupd]; exact hsf.2.2.2
  · intro hml
    rw [hupd]
    exact handleInput_money_towers inp st hml
  · intro inp' h
    exact handleInput_keyP inp' st h

/-- A paused game-over state with a money value distinct from the restart
value, to observe whether restarting happened. -/
def pausedGameOverState : GameState :=
  { sampleState with
    isPaused := true
    gameState := .gameOver
    playerMoney := 42 }

def inputR : Input := ⟨false, false, true, false, false, (0, 0)⟩

/-- Restart input is NOT accepted while paused: in a paused game-over state
a tick with `KEY_R` pressed leaves the phase at game-over and the money
untouched, whereas a restart would set the phase to the wave transition and
the money to the starting amount. -/
theorem claim_C8_counterexample :
    pausedGameOverState.isPaused = true ∧
    pausedGameOverState.gameState = GState.gameOver ∧
    inputR.keyR = true ∧
    (updateGame inputR 1 pausedGameOverState).gameState = GState.gameOver ∧
    (updateGame inputR 1 pausedGameOverState).playerMoney = 42 ∧
    (restartGame pausedGameOverState).gameState = GState.waveTransition ∧
    (restartGame pausedGameOverState).playerMoney = PLAYER_START_MONEY ∧
    (42 : Int) ≠ PLAYER_START_MONEY := by
  have hui : handleInput inputR pausedGameOverState = pausedGameOverState := by
    simp [handleInput, inputR]
  have hupd : updateGame inputR 1 pausedGameOverState = pausedGameOverState := by
    unfold updateGame
    dsimp only
    rw [hui, if_pos (show pausedGameOverState.isPaused = true from rfl)]
  refine ⟨rfl, rfl, rfl, ?_, ?_, rfl, rfl, by decide⟩
  · rw [hupd]
    rfl
  · rw [hupd]
    rfl

def pausedPlainState : GameState := { sampleState with isPaused := true }

def inputNone : Input := ⟨false, false, false, false, false, (0, 0)⟩

theorem claim_C8_witness :
    (pausedPlainState.isPaused = true ∧ inputNone.keyP = false) ∧
    (updateGame inputNone 1 pausedPlainState = handleInput inputNone pausedPlainState ∧
      (updateGame inputNone 1 pausedPlainState).activeWave = pausedPlainState.activeWave ∧
      (updateGame inputNone 1 pausedPlainState).playerHealth = pausedPlainState.playerHealth ∧
      (updateGame inputNone 1 pausedPlainState).currentWaveNumber =
        pausedPlainState.currentWaveNumber ∧
      (updateGame inputNone 1 pausedPlainState).gameState = pausedPlainState.gameState ∧
      (inputNone.mouseLeft = false →
        (updateGame inputNone 1 pausedPlainState).playerMoney =
          pausedPlainState.playerMoney ∧
        (updateGame inputNone 1 pausedPlainState).towers = pausedPlainState.towers) ∧
      (∀ inp' : Input, inp'.keyP = true →
        (handleInput inp' pausedPlainState).isPaused = !pausedPlainState.isPaused)) :=
  ⟨⟨rfl, rfl⟩, claim_C8 inputNone 1 pausedPlainState rfl rfl⟩

/-! ## Claim C9: combat-tick damage and reward accounting -/

theorem getD_out (l : List Enemy) (i : Nat) (hi : ¬ i < l.length) :
    l.getD i default = default := by
  rw [List.getD_eq_getElem?_getD, List.getElem?_eq_none (by omega)]
  rfl

theorem getD_map (f : Enemy → Enemy) (l : List Enemy) (i : Nat)
    (hi : i < l.length) :
    (l.map f).getD i default = f (l.getD i default) := by
  rw [List.getD_eq_getElem?_getD, List.getD_eq_getElem?_getD,
    List.getElem?_map, List.getElem?_eq_getElem hi]
  rfl

theorem sum_map_add_int (l : List Nat) (f g : Nat → Int) :
    (l.map fun i => f i + g i).sum = (l.map f).sum + (l.map g).sum := by
  induction l with
  | nil => simp
  | cons a t ih => simp [ih]; ring

theorem sum_map_zero_int (l : List Nat) (f : Nat → Int)
    (h : ∀ i ∈ l, f i = 0) : (l.map f).sum = 0 := by
  induction l with
  | nil => simp
  | cons a t ih =>
    simp only [List.map_cons, List.sum_cons, h a (List.mem_cons_self a t)]
    rw [ih (fun i hi => h i (List.mem_cons_of_mem a hi))]
    omega

/-- The total kill reward paid for the enemies that went from active to
inactive between two snapshots of the enemy array. -/
def deathRewards (before after : List Enemy) : Int :=
  ((List.range before.length).map fun i =>
    if (before.getD i default).active = true ∧
        (after.getD i default).active = false
    then (enemyTypes (before.getD i default).type).money else 0).sum

theorem deathRewards_of_active_eq (es ds : List Enemy)
    (h : ∀ i, (ds.getD i default).active = (es.getD i default).active) :
    deathRewards es ds = 0 := by
  apply sum_map_zero_int
  intro i _
  rw [h i]
  rcases hb : (es.getD i default).active with _ | _ <;> simp [hb]

theorem dr_term (a0 a1 a2 : Bool) (r : Int) (h1 : a1 = true → a0 = true)
    (h2 : a2 = true → a1 = true) :
    ((if a0 = true ∧ a1 = false then r else 0) +
      if a1 = true ∧ a2 = false then r else 0) =
    if a0 = true ∧ a2 = false then r else 0 := by
  cases a0 <;> cases a1 <;> cases a2 <;> simp_all

theorem deathRewards_trans (e0 e1 e2 : List Enemy)
    (hlen1 : e1.length = e0.length) (hlen2 : e2.length = e1.length)
    (hmono1 : ∀ i, (e1.getD i default).active = true →
      (e0.getD i default).active = true)
    (hmono2 : ∀ i, (e2.getD i default).active = true →
      (e1.getD i default).active = true)
    (hty : ∀ i, (e1.getD i default).type = (e0.getD i default).type) :
    deathRewards e0 e1 + deathRewards e1 e2 = deathRewards e0 e2 := by
  unfold deathRewards
  rw [hlen1, ← sum_map_add_int]
  apply congrArg
  apply List.map_congr_left
  intro i _
  rw [hty i]
  exact dr_term _ _ _ _ (hmono1 i) (hmono2 i)

/-- What a damage pass may do to the enemy array: it keeps length, active
flags and types, and leaves inactive slots completely untouched. -/
def DamagePreserves (es ds : List Enemy) : Prop :=
  ds.length = es.length ∧
  (∀ i, (ds.getD i default).active = (es.getD i default).active) ∧
  (∀ i, (ds.getD i default).type = (es.getD i default).type) ∧
  (∀ i, (es.getD i default).active = false →
    ds.getD i default = es.getD i default)

theorem damage_map_spec (es : List Enemy) (f : Enemy → Enemy)
    (hf1 : ∀ e, (f e).active = e.active)
    (hf2 : ∀ e, (f e).type = e.type)
    (hf3 : ∀ e, e.active = false → f e = e) :
    DamagePreserves es (es.map f) := by
  have hd : (default : Enemy).active = false := rfl
  refine ⟨List.length_map es f, ?_, ?_, ?_⟩
  · intro i
    by_cases hi : i < es.length
    · rw [getD_map f es i hi, hf1]
    · rw [getD_out es i hi, getD_out _ i (by simpa using hi)]
  · intro i
    by_cases hi : i < es.length
    · rw [getD_map f es i hi, hf2]
    · rw [getD_out es i hi, getD_out _ i (by simpa using hi)]
  · intro i hact
    by_cases hi : i < es.length
    · rw [getD_map f es i hi, hf3 _ hact]
    · rw [getD_out es i hi, getD_out _ i (by simpa using hi)]

theorem damage_set_spec (es : List Enemy) (n : Nat) (h : ℚ)
    (hact : (es.getD n default).active = true) :
    DamagePreserves es (es.set n { es.getD n default with health := h }) := by
  have hn : n < es.length := by
    by_contra hn
    rw [getD_out es n hn] at hact
    exact absurd hact (by decide)
  have hlen : (es.set n { es.getD n default with health := h }).length =
      es.length := List.length_set es n _
  refine ⟨hlen, ?_, ?_, ?_⟩
  · intro i
    by_cases hin : i = n
    · subst hin
      rw [getD_set_self es i _ hn]
    · rw [getD_set_ne es n i _ hin]
  · intro i
    by_cases hin : i = n
    · subst hin
      rw [getD_set_self es i _ hn]
    · rw [getD_set_ne es n i _ hin]
  · intro i hia
    by_cases hin : i = n
    · subst hin
      rw [hia] at hact
      exact absurd hact (by decide)
    · rw [getD_set_ne es n i _ hin]

theorem acquireTarget_aux (enemies : List Enemy) (towerScreenPos : ℚ × ℚ)
    (range : ℚ) (l : List Nat) (acc : ℚ × Int)
    (hacc : acc.2 = -1 ∨ (enemies.getD acc.2.toNat default).active = true) :
    (l.foldl
      (fun (acc : ℚ × Int) i =>
        let enemy := enemies.getD i default
        if enemy.active = true ∧
            vector2DistanceSqr towerScreenPos enemy.pos ≤ range ^ 2 ∧
            enemy.progress > acc.1 then
          (enemy.progress, (i : Int))
        else acc)
      acc).2 = -1 ∨
    (enemies.getD ((l.foldl
      (fun (acc : ℚ × Int) i =>
        let enemy := enemies.getD i default
        if enemy.active = true ∧
            vector2DistanceSqr towerScreenPos enemy.pos ≤ range ^ 2 ∧
            enemy.progress > acc.1 then
          (enemy.progress, (i : Int))
        else acc)
      acc).2.toNat) default).active = true := by
  induction l generalizing acc with
  | nil => exact hacc
  | cons j t ih =>
    rw [List.foldl_cons]
    apply ih
    dsimp only
    split
    · rename_i hcond
      right
      simpa using hcond.1
    · exact hacc

theorem acquireTarget_spec (enemies : List Enemy) (towerScreenPos : ℚ × ℚ)
    (range : ℚ) :
    acquireTarget enemies towerScreenPos range = -1 ∨
    (enemies.getD (acquireTarget enemies towerScreenPos range).toNat
      default).active = true := by
  unfold acquireTarget
  exact acquireTarget_aux enemies towerScreenPos range _ (-1, -1) (Or.inl rfl)

/-! ### The death sweep -/

theorem sweep_fold_spec (l : List Nat) (hl : l.Nodup) (es : List Enemy)
    (m t : Int) :
    (l.foldl sweepStep (es, m, t)).1.length = es.length ∧
    (∀ i, i ∉ l →
      (l.foldl sweepStep (es, m, t)).1.getD i default = es.getD i default) ∧
    (∀ i, i ∈ l →
      (l.foldl sweepStep (es, m, t)).1.getD i default =
        if (es.getD i default).active = true ∧ (es.getD i default).health ≤ 0
        then { es.getD i default with active := false }
        else es.getD i default) ∧
    (l.foldl sweepStep (es, m, t)).2.1 =
      m + (l.map fun i =>
        if (es.getD i default).active = true ∧ (es.getD i default).health ≤ 0
        then (enemyTypes (es.getD i default).type).money else 0).sum := by
  induction l generalizing es m t with
  | nil =>
    refine ⟨rfl, fun i _ => rfl, fun i hi => absurd hi (List.not_mem_nil i), by simp⟩
  | cons j tl ih =>
    obtain ⟨hj, hnd⟩ := List.nodup_cons.mp hl
    rw [List.foldl_cons]
    by_cases hc : (es.getD j default).active = true ∧ (es.getD j default).health ≤ 0
    · have hjlt : j < es.length := by
        by_contra hjn
        rw [getD_out es j hjn] at hc
        exact absurd hc.1 (by decide)
      have hstep : sweepStep (es, m, t) j =
          (es.set j { es.getD j default with active := false },
            m + (enemyTypes (es.getD j default).type).money,
            if t = (j : Int) then -1 else t) := by
        unfold sweepStep
        dsimp only
        rw [if_pos hc]
      rw [hstep]
      obtain ⟨ih1, ih2, ih3, ih4⟩ := ih hnd
        (es.set j { es.getD j default with active := false })
        (m + (enemyTypes (es.getD j default).type).money)
        (if t = (j : Int) then -1 else t)
      refine ⟨?_, ?_, ?_, ?_⟩
      · rw [ih1, List.length_set]
      · intro i hi
        have hine : i ≠ j := fun h => hi (h ▸ List.mem_cons_self j tl)
        have hint : i ∉ tl := fun h => hi (List.mem_cons_of_mem j h)
        rw [ih2 i hint, getD_set_ne es j i _ hine]
      · intro i hi
        rcases List.mem_cons.mp hi with hij | hit
        · subst hij
          rw [ih2 i hj, getD_set_self es i _ hjlt, if_pos hc]
        · have hine : i ≠ j := fun h => hj (h ▸ hit)
          rw [ih3 i hit, getD_set_ne es j i _ hine]
      · rw [ih4]
        have hmc : (tl.map fun i =>
            if ((es.set j { es.getD j default with active := false }).getD i
                  default).active = true ∧
                ((es.set j { es.getD j default with active := false }).getD i
                  default).health ≤ 0
            then (enemyTypes ((es.set j
                { es.getD j default with active := false }).getD i
                  default).type).money else 0) =
            tl.map fun i =>
              if (es.getD i default).active = true ∧
                  (es.getD i default).health ≤ 0
              then (enemyTypes (es.getD i default).type).money else 0 := by
          apply List.map_congr_left
          intro i hit
          have hine : i ≠ j := fun h => hj (h ▸ hit)
          rw [getD_set_ne es j i _ hine]
        rw [hmc, List.map_cons, List.sum_cons, if_pos hc]
        ring
    · have hstep : sweepStep (es, m, t) j = (es, m, t) := by
        unfold sweepStep
        dsimp only
        rw [if_neg hc]
      rw [hstep]
      obtain ⟨ih1, ih2, ih3, ih4⟩ := ih hnd es m t
      refine ⟨ih1, ?_, ?_, ?_⟩
      · intro i hi
        exact ih2 i (fun h => hi (List.mem_cons_of_mem j h))
      · intro i hi
        rcases List.mem_cons.mp hi with hij | hit
        · subst hij
          rw [ih2 i hj, if_neg hc]
        · exact ih3 i hit
      · rw [ih4, List.map_cons, List.sum_cons, if_neg hc]
        ring

theorem sweep_spec (es ds : List Enemy) (m t : Int)
    (hdp : DamagePreserves es ds) :
    (deathSweep ds m t).1.length = es.length ∧
    (∀ i, (es.getD i default).active = false →
      (deathSweep ds m t).1.getD i default = es.getD i default) ∧
    (∀ i, ((deathSweep ds m t).1.getD i default).type =
      (es.getD i default).type) ∧
    (∀ i, (es.getD i default).active = true →
      ((deathSweep ds m t).1.getD i default).active = false →
      ((deathSweep ds m t).1.getD i default).health ≤ 0) ∧
    (deathSweep ds m t).2.1 = m + deathRewards es (deathSweep ds m t).1 := by
  obtain ⟨hdl, hda, hdt, hdi⟩ := hdp
  obtain ⟨f1, f2, f3, f4⟩ := sweep_fold_spec (List.range ds.length)
    (List.nodup_range ds.length) ds m t
  have hds_eq : List.foldl sweepStep (ds, m, t) (List.range ds.length) =
      deathSweep ds m t := rfl
  rw [hds_eq] at f1 f2 f3 f4
  have hchar : ∀ i, i < ds.length →
      (deathSweep ds m t).1.getD i default =
        if (ds.getD i default).active = true ∧ (ds.getD i default).health ≤ 0
        then { ds.getD i default with active := false }
        else ds.getD i default := by
    intro i hi
    exact f3 i (List.mem_range.mpr hi)
  have hout : ∀ i, ¬ i < ds.length →
      (deathSweep ds m t).1.getD i default = ds.getD i default := by
    intro i hi
    exact f2 i (fun h => hi (List.mem_range.mp h))
  refine ⟨f1.trans hdl, ?_, ?_, ?_, ?_⟩
  · intro i hia
    have hds : ds.getD i default = es.getD i default := hdi i hia
    by_cases hi : i < ds.length
    · rw [hchar i hi, hds, if_neg (fun hcon => by
        rw [hia] at hcon
        exact absurd hcon.1 (by decide))]
    · rw [hout i hi, hds]
  · intro i
    by_cases hi : i < ds.length
    · rw [hchar i hi]
      split
      · exact hdt i
      · exact hdt i
    · rw [hout i hi]
      exact hdt i
  · intro i hia hsw
    by_cases hi : i < ds.length
    · rw [hchar i hi] at hsw ⊢
      by_cases hc : (ds.getD i default).active = true ∧
          (ds.getD i default).health ≤ 0
      · rw [if_pos hc]
        exact hc.2
      · rw [if_neg hc] at hsw
        rw [hda i, hia] at hsw
        exact absurd hsw (by decide)
    · rw [hout i hi] at hsw
      rw [hda i, hia] at hsw
      exact absurd hsw (by decide)
  · rw [f4]
    apply congrArg
    unfold deathRewards
    rw [hdl]
    apply congrArg
    apply List.map_congr_left
    intro i hmem
    have hi : i < ds.length := by
      rw [hdl]
      exact List.mem_range.mp hmem
    rw [hchar i hi]
    by_cases hc : (ds.getD i default).active = true ∧
        (ds.getD i default).health ≤ 0
    · have hsw : (if (ds.getD i default).active = true ∧
          (ds.getD i default).health ≤ 0 then
          { ds.getD i default with active := false }
          else ds.getD i default) =
          { ds.getD i default with active := false } := if_pos hc
      rw [hsw]
      rw [if_pos hc]
      rw [if_pos (show (es.getD i default).active = true ∧
          ({ ds.getD i default with active := false } : Enemy).active = false from
          ⟨(hda i).symm.trans hc.1, rfl⟩)]
      rw [← hdt i]
    · rw [if_neg hc]
      rw [if_neg hc]
      rw [if_neg (show ¬((es.getD i default).active = true ∧
          (ds.getD i default).active = false) from fun hcon =>
        absurd (((hda i).trans hcon.1).symm.trans hcon.2) (by decide))]

/-! ### The tower loop body -/

/-- The body of `towerStep` for an active tower, with the cooldown/muzzle
bookkeeping already applied to `tower` (see `towerStep_eq`). -/
def towerBody (dt : ℚ) (c : Cell) (cs : CombatState) (stats : TowerLevelStats)
    (tower : Tower) : CombatState :=
  let towerScreenPos := cellCenter c
  if tower.type = TowerType.slow then
    if tower.fireCooldown ≤ 0 then
      { cs with
        enemies := cs.enemies.map fun enemy =>
          if enemy.active = true ∧
              vector2DistanceSqr enemy.pos towerScreenPos ≤ stats.range ^ 2 then
            { enemy with
              speedMultiplier := stats.damage
              slowTimer := 1 / stats.fireRate + 1/10 }
          else enemy
        towers := fun x => if x = c then
            { tower with fireCooldown := 1 / stats.fireRate }
          else cs.towers x }
    else { cs with towers := fun x => if x = c then tower else cs.towers x }
  else
    let tower :=
      if tower.targetIndex ≠ -1 then
        if (cs.enemies.getD tower.targetIndex.toNat default).active = false ∨
            vector2DistanceSqr towerScreenPos
              (cs.enemies.getD tower.targetIndex.toNat default).pos >
              stats.range ^ 2 then
          { tower with targetIndex := -1 }
        else tower
      else tower
    let tower :=
      if tower.targetIndex = -1 then
        { tower with targetIndex := acquireTarget cs.enemies towerScreenPos stats.range }
      else tower
    if tower.targetIndex ≠ -1 then
      if tower.fireCooldown ≤ 0 then
        let target := cs.enemies.getD tower.targetIndex.toNat default
        let damaged :=
          if tower.type = TowerType.gun then
            cs.enemies.set tower.targetIndex.toNat
              { target with health := target.health - stats.damage }
          else
            cs.enemies.map fun sp =>
              if sp.active = true ∧
                  vector2DistanceSqr target.pos sp.pos < stats.splashRadius ^ 2 then
                { sp with health := sp.health - stats.damage }
              else sp
        let tower := if tower.type = TowerType.gun then
            { tower with
              fireCooldown := 1 / stats.fireRate
              muzzleFlashTimer := 1/10 }
          else { tower with fireCooldown := 1 / stats.fireRate }
        let swept := deathSweep damaged cs.money tower.targetIndex
        { towers := fun x => if x = c then
              { tower with targetIndex := swept.2.2 }
            else cs.towers x
          enemies := swept.1
          money := swept.2.1 }
      else { cs with towers := fun x => if x = c then tower else cs.towers x }
    else { cs with towers := fun x => if x = c then tower else cs.towers x }

theorem towerStep_eq (dt : ℚ) (c : Cell) (cs : CombatState) :
    towerStep dt c cs =
      if (cs.towers c).active = false then cs
      else
        towerBody dt c cs (g_towerStats (cs.towers c).type (cs.towers c).level)
          (let t1 := if (cs.towers c).fireCooldown > 0 then
              { cs.towers c with fireCooldown := (cs.towers c).fireCooldown - dt }
            else cs.towers c
           if t1.muzzleFlashTimer > 0 then
             { t1 with muzzleFlashTimer := t1.muzzleFlashTimer - dt } else t1) := rfl

/-- What one combat pass guarantees relative to its entry state: enemy
count kept, inactive enemies completely untouched, types kept, an enemy
deactivated by the pass has non-positive health, and the money delta is
exactly the once-per-slot death reward sum. -/
def CombatSpec (cs cs' : CombatState) : Prop :=
  cs'.enemies.length = cs.enemies.length ∧
  (∀ i, (cs.enemies.getD i default).active = false →
    cs'.enemies.getD i default = cs.enemies.getD i default) ∧
  (∀ i, (cs'.enemies.getD i default).type = (cs.enemies.getD i default).type) ∧
  (∀ i, (cs.enemies.getD i default).active = true →
    (cs'.enemies.getD i default).active = false →
    (cs'.enemies.getD i default).health ≤ 0) ∧
  cs'.money = cs.money + deathRewards cs.enemies cs'.enemies

theorem combatSpec_same (cs cs' : CombatState) (he : cs'.enemies = cs.enemies)
    (hm : cs'.money = cs.money) : CombatSpec cs cs' := by
  refine ⟨by rw [he], fun i _ => by rw [he], fun i => by rw [he],
    fun i h1 h2 => ?_, ?_⟩
  · rw [he] at h2
    exact absurd (h1.symm.trans h2) (by decide)
  · rw [he, hm, deathRewards_of_active_eq cs.enemies cs.enemies fun i => rfl]
    omega

theorem combatSpec_damage_only (cs : CombatState) (f : Enemy → Enemy)
    (hf1 : ∀ e, (f e).active = e.active)
    (hf2 : ∀ e, (f e).type = e.type)
    (hf3 : ∀ e, e.active = false → f e = e) (tw : Cell → Tower) :
    CombatSpec cs ⟨tw, cs.enemies.map f, cs.money⟩ := by
  obtain ⟨d1, d2, d3, d4⟩ := damage_map_spec cs.enemies f hf1 hf2 hf3
  refine ⟨d1, d4, d3, fun i h1 h2 => ?_, ?_⟩
  · rw [d2 i] at h2
    exact absurd (h1.symm.trans h2) (by decide)
  · show cs.money = cs.money + _
    rw [deathRewards_of_active_eq cs.enemies (cs.enemies.map f) d2]
    omega

theorem combatSpec_slow (cs : CombatState) (p : ℚ × ℚ) (r sm sl : ℚ)
    (tw : Cell → Tower) :
    CombatSpec cs
      ⟨tw,
        cs.enemies.map fun enemy =>
          if enemy.active = true ∧ vector2DistanceSqr enemy.pos p ≤ r then
            { enemy with speedMultiplier := sm, slowTimer := sl }
          else enemy,
        cs.money⟩ := by
  apply combatSpec_damage_only
  · intro e
    split <;> rfl
  · intro e
    split <;> rfl
  · intro e he
    rw [if_neg fun hcon => absurd (he.symm.trans hcon.1) (by decide)]

theorem combatSpec_fire_gun (cs : CombatState) (n : Int) (d : ℚ) (t : Int)
    (tw : Cell → Tower)
    (hact : (cs.enemies.getD n.toNat default).active = true) :
    CombatSpec cs
      ⟨tw,
        (deathSweep (cs.enemies.set n.toNat
          { cs.enemies.getD n.toNat default with
            health := (cs.enemies.getD n.toNat default).health - d })
          cs.money t).1,
        (deathSweep (cs.enemies.set n.toNat
          { cs.enemies.getD n.toNat default with
            health := (cs.enemies.getD n.toNat default).health - d })
          cs.money t).2.1⟩ := by
  obtain ⟨s1, s2, s3, s4, s5⟩ := sweep_spec cs.enemies
    (cs.enemies.set n.toNat
      { cs.enemies.getD n.toNat default with
        health := (cs.enemies.getD n.toNat default).health - d })
    cs.money t
    (damage_set_spec cs.enemies n.toNat
      ((cs.enemies.getD n.toNat default).health - d) hact)
  exact ⟨s1, s2, s3, s4, s5⟩

theorem combatSpec_fire_splash (cs : CombatState) (p : ℚ × ℚ) (r d : ℚ)
    (t : Int) (tw : Cell → Tower) :
    CombatSpec cs
      ⟨tw,
        (deathSweep (cs.enemies.map fun sp =>
          if sp.active = true ∧ vector2DistanceSqr p sp.pos < r then
            { sp with health := sp.health - d }
          else sp) cs.money t).1,
        (deathSweep (cs.enemies.map fun sp =>
          if sp.active = true ∧ vector2DistanceSqr p sp.pos < r then
            { sp with health := sp.health - d }
          else sp) cs.money t).2.1⟩ := by
  obtain ⟨s1, s2, s3, s4, s5⟩ := sweep_spec cs.enemies
    (cs.enemies.map fun sp =>
      if sp.active = true ∧ vector2DistanceSqr p sp.pos < r then
        { sp with health := sp.health - d }
      else sp)
    cs.money t
    (damage_map_spec cs.enemies _
      (fun e => by split <;> rfl)
      (fun e => by split <;> rfl)
      (fun e he => by
        rw [if_neg fun hcon => absurd (he.symm.trans hcon.1) (by decide)]))
  exact ⟨s1, s2, s3, s4, s5⟩

/-! ### Per-tower spec and composition over the grid -/

theorem towerBody_spec (dt : ℚ) (c : Cell) (cs : CombatState)
    (stats : TowerLevelStats) (tower : Tower) :
    CombatSpec cs (towerBody dt c cs stats tower) := by
  unfold towerBody
  dsimp only
  by_cases hs : tower.type = TowerType.slow
  · rw [if_pos hs]
    by_cases hcd : tower.fireCooldown ≤ 0
    · rw [if_pos hcd]
      exact combatSpec_slow cs (cellCenter c) (stats.range ^ 2) stats.damage
        (1 / stats.fireRate + 1/10) _
    · rw [if_neg hcd]
      exact combatSpec_same cs _ rfl rfl
  · rw [if_neg hs]
    by_cases v1 : tower.targetIndex = -1
    · rw [if_neg (not_not_intro v1), if_pos v1]
      dsimp only
      by_cases ha : acquireTarget cs.enemies (cellCenter c) stats.range = -1
      · rw [if_neg (not_not_intro ha)]
        exact combatSpec_same cs _ rfl rfl
      · rw [if_pos ha]
        by_cases hf : tower.fireCooldown ≤ 0
        · rw [if_pos hf]
          have hact : (cs.enemies.getD
              (acquireTarget cs.enemies (cellCenter c) stats.range).toNat
              default).active = true :=
            (acquireTarget_spec cs.enemies (cellCenter c) stats.range).resolve_left ha
          by_cases hg : tower.type = TowerType.gun
          · rw [if_pos hg, if_pos hg]
            exact combatSpec_fire_gun cs _ stats.damage _ _ hact
          · rw [if_neg hg, if_neg hg]
            exact combatSpec_fire_splash cs _ _ stats.damage _ _
        · rw [if_neg hf]
          exact combatSpec_same cs _ rfl rfl
    · rw [if_pos v1]
      by_cases hbad : (cs.enemies.getD tower.targetIndex.toNat default).active =
          false ∨
          vector2DistanceSqr (cellCenter c)
            (cs.enemies.getD tower.targetIndex.toNat default).pos >
            stats.range ^ 2
      · rw [if_pos hbad]
        dsimp only
        rw [if_pos (show (-1 : Int) = -1 from rfl)]
        dsimp only
        by_cases ha : acquireTarget cs.enemies (cellCenter c) stats.range = -1
        · rw [if_neg (not_not_intro ha)]
          exact combatSpec_same cs _ rfl rfl
        · rw [if_pos ha]
          by_cases hf : tower.fireCooldown ≤ 0
          · rw [if_pos hf]
            have hact : (cs.enemies.getD
                (acquireTarget cs.enemies (cellCenter c) stats.range).toNat
                default).active = true :=
              (acquireTarget_spec cs.enemies (cellCenter c)
                stats.range).resolve_left ha
            by_cases hg : tower.type = TowerType.gun
            · rw [if_pos hg, if_pos hg]
              exact combatSpec_fire_gun cs _ stats.damage _ _ hact
            · rw [if_neg hg, if_neg hg]
              exact combatSpec_fire_splash cs _ _ stats.damage _ _
          · rw [if_neg hf]
            exact combatSpec_same cs _ rfl rfl
      · rw [if_neg hbad, if_neg v1, if_pos v1]
        by_cases hf : tower.fireCooldown ≤ 0
        · rw [if_pos hf]
          have h1 : ¬((cs.enemies.getD tower.targetIndex.toNat default).active =
              false) := (not_or.mp hbad).1
          have hact : (cs.enemies.getD tower.targetIndex.toNat default).active =
              true := by
            cases hb : (cs.enemies.getD tower.targetIndex.toNat default).active
            · exact absurd hb h1
            · rfl
          by_cases hg : tower.type = TowerType.gun
          · rw [if_pos hg, if_pos hg]
            exact combatSpec_fire_gun cs _ stats.damage _ _ hact
          · rw [if_neg hg, if_neg hg]
            exact combatSpec_fire_splash cs _ _ stats.damage _ _
        · rw [if_neg hf]
          exact combatSpec_same cs _ rfl rfl

theorem combatSpec_mono (a b : CombatState) (h : CombatSpec a b) :
    ∀ i, (b.enemies.getD i default).active = true →
      (a.enemies.getD i default).active = true := by
  intro i hb
  cases ha : (a.enemies.getD i default).active
  · rw [h.2.1 i ha] at hb
    exact absurd (hb.symm.trans ha) (by decide)
  · rfl

theorem combatSpec_trans (a b c : CombatState) (h1 : CombatSpec a b)
    (h2 : CombatSpec b c) : CombatSpec a c := by
  refine ⟨h2.1.trans h1.1, ?_, ?_, ?_, ?_⟩
  · intro i hia
    have hib : (b.enemies.getD i default).active = false := by
      rw [h1.2.1 i hia]
      exact hia
    rw [h2.2.1 i hib, h1.2.1 i hia]
  · intro i
    rw [h2.2.2.1 i, h1.2.2.1 i]
  · intro i hia hic
    cases hb : (b.enemies.getD i default).active
    · have hcb : c.enemies.getD i default = b.enemies.getD i default :=
        h2.2.1 i hb
      rw [hcb]
      exact h1.2.2.2.1 i hia hb
    · exact h2.2.2.2.1 i hb hic
  · have hdr : deathRewards a.enemies b.enemies +
        deathRewards b.enemies c.enemies =
        deathRewards a.enemies c.enemies :=
      deathRewards_trans a.enemies b.enemies c.enemies h1.1 h2.1
        (combatSpec_mono a b h1) (combatSpec_mono b c h2)
        (fun i => h1.2.2.1 i)
    have hm1 := h1.2.2.2.2
    have hm2 := h2.2.2.2.2
    omega

theorem towerStep_spec (dt : ℚ) (c : Cell) (cs : CombatState) :
    CombatSpec cs (towerStep dt c cs) := by
  rw [towerStep_eq]
  by_cases h0 : (cs.towers c).active = false
  · rw [if_pos h0]
    exact combatSpec_same cs cs rfl rfl
  · rw [if_neg h0]
    exact towerBody_spec dt c cs _ _

theorem combat_fold_spec (dt : ℚ) (l : List Cell) (cs : CombatState) :
    CombatSpec cs (l.foldl (fun acc c => towerStep dt c acc) cs) := by
  induction l generalizing cs with
  | nil => exact combatSpec_same cs cs rfl rfl
  | cons c t ih =>
    rw [List.foldl_cons]
    exact combatSpec_trans _ _ _ (towerStep_spec dt c cs) (ih (towerStep dt c cs))

set_option maxRecDepth 4000 in
/-- C9: over one whole combat tick (`UpdateTowers` across the grid), the
enemy count is unchanged; an enemy whose active flag is clear at the start
of the tick is completely untouched (no damage, slow, or reward ever
reaches an inactive enemy); active flags are never re-set by combat; enemy
types are unchanged; an enemy deactivated during the tick had its health
driven to ≤ 0; and the player's currency increases by exactly the sum, over
the slots that went from active to inactive during the tick, of that
enemy type's kill reward — so each kill is paid exactly once, at the
deactivation, and never twice for the same enemy. -/
theorem claim_C9 (dt : ℚ) (st : GameState) :
    (updateTowersGame dt st).activeWave.enemies.length =
      st.activeWave.enemies.length ∧
    (∀ i, (st.activeWave.enemies.getD i default).active = false →
      (updateTowersGame dt st).activeWave.enemies.getD i default =
        st.activeWave.enemies.getD i default) ∧
    (∀ i, ((updateTowersGame dt st).activeWave.enemies.getD i
        default).active = true →
      (st.activeWave.enemies.getD i default).active = true) ∧
    (∀ i, ((updateTowersGame dt st).activeWave.enemies.getD i default).type =
      (st.activeWave.enemies.getD i default).type) ∧
    (∀ i, (st.activeWave.enemies.getD i default).active = true →
      ((updateTowersGame dt st).activeWave.enemies.getD i
        default).active = false →
      ((updateTowersGame dt st).activeWave.enemies.getD i default).health ≤ 0) ∧
    (updateTowersGame dt st).playerMoney = st.playerMoney +
      deathRewards st.activeWave.enemies
        (updateTowersGame dt st).activeWave.enemies := by
  have h := combat_fold_spec dt allCells
    ⟨st.towers, st.activeWave.enemies, st.playerMoney⟩
  have heq : (updateTowersGame dt st).activeWave.enemies =
      (allCells.foldl (fun acc c => towerStep dt c acc)
        ⟨st.towers, st.activeWave.enemies, st.playerMoney⟩).enemies := rfl
  have hmq : (updateTowersGame dt st).playerMoney =
      (allCells.foldl (fun acc c => towerStep dt c acc)
        ⟨st.towers, st.activeWave.enemies, st.playerMoney⟩).money := rfl
  refine ⟨?_, ?_, ?_, ?_, ?_, ?_⟩
  · rw [heq]
    exact h.1
  · intro i hia
    rw [heq]
    exact h.2.1 i hia
  · intro i hact
    rw [heq] at hact
    exact combatSpec_mono _ _ h i hact
  · intro i
    rw [heq]
    exact h.2.2.1 i
  · intro i h1 h2
    rw [heq] at h2 ⊢
    exact h.2.2.2.1 i h1 h2
  · rw [heq, hmq]
    exact h.2.2.2.2


end TD
